import Mathlib

/-!
Verification development for the segment matching-and-merging engine of a
video object tracker (`deva/inference/segment_merging.py`).

Masks live on a linearised pixel grid: a binary mask is a `List Bool`, a
label mask is a `List Nat` (value `0` is background).  The object manager
(`ObjectInfo` / `ObjectManager`) is not part of the given sources; its
interface is modelled from the specification where marked.  Dictionaries
keyed by objects are modelled as association lists or functions keyed by
the object's stable integer identity, matching the spec's statement that
identity is the stable key of an object record.
-/

set_option autoImplicit false

namespace SegMerge

abbrev Mask := List Bool
abbrev LabelMask := List Nat

/-- Number of `true` pixels of a binary mask (`mask.sum()` on a boolean
tensor). -/
def maskSum (m : Mask) : Nat := m.countP (fun b => b)

/-- Number of pixels `true` in both masks (`(m1 * m2).sum()`). -/
def maskInter (a b : Mask) : Nat := (List.zipWith (fun x y => x && y) a b).countP (fun b => b)

/-- Result triple of `_get_iou`. -/
structure IouResult where
  ratio : ℚ
  intersection : Option Nat
  union : Option Int
deriving DecidableEq, Repr

/-- `_get_iou(m1, m2, m1_sum, m2_sum)`.  The source short-circuits when the
integer intersection count is below `1e-3`, i.e. exactly when it is `0`. -/
def get_iou (m1 m2 : Mask) (m1_sum m2_sum : Int) : IouResult :=
  let intersection := maskInter m1 m2
  if intersection = 0 then ⟨0, none, none⟩
  else
    let union := m1_sum + m2_sum - (intersection : Int)
    ⟨(intersection : ℚ) / (union : ℚ), some intersection, some union⟩

/-- Python `dict` assignment `d[k] = v`: replace the value at the first
occurrence of the key, keeping its position, else append. -/
def assocSet {α β : Type} [DecidableEq α] (k : α) (v : β) : List (α × β) → List (α × β)
  | [] => [(k, v)]
  | (k', v') :: rest => if k' = k then (k, v) :: rest else (k', v') :: assocSet k v rest

/-- Python `dict` lookup `d[k]` / membership `k in d`. -/
def alookup {α β : Type} [DecidableEq α] (k : α) : List (α × β) → Option β
  | [] => none
  | (k', v) :: rest => if k' = k then some v else alookup k rest

/-- Modelled from the spec: one tracked object record (`ObjectInfo`,
declared in `deva/inference/object_info.py`, which is not among the given
sources): stable integer identity, tri-state category flag, confidence
score, and the staleness counter (`poke_count`). -/
structure ObjectInfo where
  id : Nat
  isthing : Option Bool
  score : ℚ
  poke_count : Nat
deriving DecidableEq, Repr

/-- Modelled from the spec: the object registry (`ObjectManager`, declared
in `deva/inference/object_manager.py`, not among the given sources).
`objects` is the key order of `obj_to_tmp_id`; the temporary index of
`objects[i]` is `i + 1` (index `0` is background).  `all_historical_object_ids`
grows monotonically and backs the population cap.  `next_id` is the next
fresh identity. -/
structure ObjectManager where
  objects : List ObjectInfo
  all_historical_object_ids : List Nat
  next_id : Nat
deriving DecidableEq, Repr

/-- Modelled from the spec: the dense temporary index of the object with
identity `oid` (position in `obj_to_tmp_id`, one-based; `0` if absent). -/
def ObjectManager.tmp_id_of (om : ObjectManager) (oid : Nat) : Nat :=
  match om.objects.findIdx? (fun o => o.id == oid) with
  | some i => i + 1
  | none => 0

/-- Update the record with identity `oid` in place. -/
def ObjectManager.update_obj (om : ObjectManager) (oid : Nat)
    (f : ObjectInfo → ObjectInfo) : ObjectManager :=
  { om with objects := om.objects.map (fun o => if o.id = oid then f o else o) }

/-- Modelled from the spec: `poke` increments the staleness counter of one
object (one frame unmatched). -/
def ObjectManager.poke (om : ObjectManager) (oid : Nat) : ObjectManager :=
  om.update_obj oid (fun o => { o with poke_count := o.poke_count + 1 })

/-- Modelled from the spec: `unpoke` resets the staleness counter of one
object to zero (matched this frame). -/
def ObjectManager.unpoke (om : ObjectManager) (oid : Nat) : ObjectManager :=
  om.update_obj oid (fun o => { o with poke_count := 0 })

/-- Modelled from the spec: `obj.merge(new_obj)` absorbs a matched
candidate into an existing record, updating the confidence
deterministically (the spec allows keep-max or keep-latest; keep-max is
used here). -/
def ObjectManager.merge_obj (om : ObjectManager) (oid : Nat) (cand : ObjectInfo) :
    ObjectManager :=
  om.update_obj oid (fun o => { o with score := max o.score cand.score })

/-- Modelled from the spec: `add_new_objects` registers a candidate as a new
object record under a freshly allocated identity (identities are assigned
once and never reused) and returns that identity. -/
def ObjectManager.add_new_objects (om : ObjectManager) (obj : ObjectInfo) :
    ObjectManager × Nat :=
  let nid := om.next_id
  ({ objects := om.objects ++ [{ obj with id := nid, poke_count := 0 }],
     all_historical_object_ids := om.all_historical_object_ids ++ [nid],
     next_id := nid + 1 }, nid)

/-- Distinct nonzero values of a label mask in first-occurrence order
(`seen` accumulates values already emitted). -/
def presentIds : LabelMask → List Nat → List Nat
  | [], _ => []
  | v :: rest, seen =>
    if v = 0 ∨ v ∈ seen then presentIds rest seen else v :: presentIds rest (v :: seen)

/-- Dense temporary index of value `v` under the first-occurrence order
`ids` (`0` for background and unknown values). -/
def relabelVal (ids : List Nat) (v : Nat) : Nat :=
  match ids.findIdx? (fun i => i == v) with
  | some i => i + 1
  | none => 0

/-- Modelled from the spec: `make_one_hot` relabels the accumulated
identity-space mask into dense temp-index space, rebuilding
`obj_to_tmp_id` from the objects actually present in the mask, in
encounter order. -/
def ObjectManager.make_one_hot (om : ObjectManager) (mask : LabelMask) :
    ObjectManager × LabelMask :=
  let ids := presentIds mask []
  ({ om with objects := ids.filterMap (fun i => om.objects.find? (fun o => o.id == i)) },
   mask.map (relabelVal ids))

/-- The three loop-local dictionaries of one merge pass:
`our_to_new_matching` (existing-object id to candidate id), `matched_area`
(render key to area), `new_objects`. -/
structure MergeState where
  our_to_new_matching : List (Nat × Nat)
  matched_area : List ((Nat × Bool) × Int)
  new_objects : List Nat
deriving DecidableEq, Repr

/-- The inner object scan of `merge_by_iou` for one candidate: the first
same-category, not-yet-matched existing object with IoU above `0.5` is
matched (`break`); if the scan falls through (`for ... else`), the
candidate is recorded as a new object. -/
def iouScan (our_masks new_masks : Nat → Mask) (our_sums new_sums : Nat → Int)
    (isthing_status : Option Bool) (new_obj : ObjectInfo) :
    List ObjectInfo → MergeState → MergeState
  | [], st =>
      { st with
        new_objects := st.new_objects ++ [new_obj.id],
        matched_area := assocSet (new_obj.id, true) (new_sums new_obj.id) st.matched_area }
  | our_obj :: rest, st =>
      if our_obj.isthing ≠ isthing_status ∨
          (alookup our_obj.id st.our_to_new_matching).isSome = true then
        iouScan our_masks new_masks our_sums new_sums isthing_status new_obj rest st
      else
        let r := get_iou (new_masks new_obj.id) (our_masks our_obj.id)
                         (new_sums new_obj.id) (our_sums our_obj.id)
        if r.ratio > 1/2 then
          { st with
            our_to_new_matching := assocSet our_obj.id new_obj.id st.our_to_new_matching,
            matched_area := assocSet (our_obj.id, false) (r.union.getD 0) st.matched_area }
        else
          iouScan our_masks new_masks our_sums new_sums isthing_status new_obj rest st

/-- The candidate loop of `merge_by_iou`: candidates of a different
category-type are skipped. -/
def iouMatchCands (our_masks new_masks : Nat → Mask) (our_sums new_sums : Nat → Int)
    (isthing_status : Option Bool) (objs : List ObjectInfo) :
    List ObjectInfo → MergeState → MergeState
  | [], st => st
  | c :: cs, st =>
      if c.isthing ≠ isthing_status then
        iouMatchCands our_masks new_masks our_sums new_sums isthing_status objs cs st
      else
        iouMatchCands our_masks new_masks our_sums new_sums isthing_status objs cs
          (iouScan our_masks new_masks our_sums new_sums isthing_status c objs st)

/-- The carried-over loop shared by both strategies: every same-category
existing object that is not matched is entered with its own pixel count as
area. -/
def addCarriedOver (our_sums : Nat → Int) (isthing_status : Option Bool) :
    List ObjectInfo → MergeState → MergeState
  | [], st => st
  | our_obj :: rest, st =>
      if our_obj.isthing ≠ isthing_status ∨
          (alookup our_obj.id st.our_to_new_matching).isSome = true then
        addCarriedOver our_sums isthing_status rest st
      else
        addCarriedOver our_sums isthing_status rest
          { st with
            matched_area := assocSet (our_obj.id, false) (our_sums our_obj.id) st.matched_area }

/-- One step of Python's stable `sorted(..., reverse := True)`: the new
element goes after every already-placed element of greater or equal key. -/
def insertDesc (x : (Nat × Bool) × Int) :
    List ((Nat × Bool) × Int) → List ((Nat × Bool) × Int)
  | [] => [x]
  | y :: ys => if y.2 ≥ x.2 then y :: insertDesc x ys else x :: y :: ys

/-- `sorted(matched_area.items(), key := area, reverse := True)`: stable
sort by descending area. -/
def sortDesc (l : List ((Nat × Bool) × Int)) : List ((Nat × Bool) × Int) :=
  l.foldl (fun acc x => insertDesc x acc) []

/-- `merged_mask[mask] = v`: write value `v` at every pixel where `mask`
is true. -/
def writeMask (lab : LabelMask) (m : Mask) (v : Nat) : LabelMask :=
  List.zipWith (fun b x => if b then v else x) m lab

/-- The candidate record carrying identity `nid` (dictionary keys are
object identities, see the header). -/
def findCand (cands : List ObjectInfo) (nid : Nat) : ObjectInfo :=
  (cands.find? (fun c => c.id == nid)).getD ⟨nid, none, 0, 0⟩

/-- One iteration of the rendering loop over `sorted_by_area`: a new
object is registered and painted under its fresh identity; a matched
object paints its own and its candidate's pixels and is merged and
unpoked; a carried-over object paints its own pixels and is poked. -/
def renderEntry (our_masks new_masks : Nat → Mask) (matching : List (Nat × Nat))
    (cands : List ObjectInfo) (acc : ObjectManager × LabelMask)
    (entry : (Nat × Bool) × Int) : ObjectManager × LabelMask :=
  let oid := entry.1.1
  if entry.1.2 = true then
    let p := acc.1.add_new_objects (findCand cands oid)
    (p.1, writeMask acc.2 (new_masks oid) p.2)
  else
    match alookup oid matching with
    | some nid =>
        ((acc.1.merge_obj oid (findCand cands nid)).unpoke oid,
         writeMask (writeMask acc.2 (our_masks oid) oid) (new_masks nid) oid)
    | none =>
        (acc.1.poke oid, writeMask acc.2 (our_masks oid) oid)

/-- The full rendering loop. -/
def renderAll (our_masks new_masks : Nat → Mask) (matching : List (Nat × Nat))
    (cands : List ObjectInfo) :
    List ((Nat × Bool) × Int) → ObjectManager × LabelMask → ObjectManager × LabelMask
  | [], acc => acc
  | e :: es, acc =>
      renderAll our_masks new_masks matching cands es
        (renderEntry our_masks new_masks matching cands acc e)

/-- `merge_by_iou`. -/
def merge_by_iou (our_masks new_masks : Nat → Mask) (our_sums new_sums : Nat → Int)
    (merged_mask : LabelMask) (om : ObjectManager)
    (new_segments_info : List ObjectInfo) (isthing_status : Option Bool) :
    ObjectManager × LabelMask :=
  let st := iouMatchCands our_masks new_masks our_sums new_sums isthing_status om.objects
              new_segments_info ⟨[], [], []⟩
  let st := addCarriedOver our_sums isthing_status om.objects st
  renderAll our_masks new_masks st.our_to_new_matching new_segments_info
    (sortDesc st.matched_area) (om, merged_mask)

/-- The inner object scan of `merge_by_engulf` for one candidate: unlike
the IoU scan it does not skip already-matched objects; IoU above `0.5`
matches (later candidates overwrite an earlier match of the same object);
otherwise positive IoU with own-area coverage above the threshold discards
the candidate; only if the scan falls through is the candidate new. -/
def engulfScan (our_masks new_masks : Nat → Mask) (our_sums new_sums : Nat → Int)
    (isthing_status : Option Bool) (engulf_threshold : ℚ) (new_obj : ObjectInfo) :
    List ObjectInfo → MergeState → MergeState
  | [], st =>
      { st with
        new_objects := st.new_objects ++ [new_obj.id],
        matched_area := assocSet (new_obj.id, true) (new_sums new_obj.id) st.matched_area }
  | our_obj :: rest, st =>
      if our_obj.isthing ≠ isthing_status then
        engulfScan our_masks new_masks our_sums new_sums isthing_status engulf_threshold
          new_obj rest st
      else
        let r := get_iou (new_masks new_obj.id) (our_masks our_obj.id)
                         (new_sums new_obj.id) (our_sums our_obj.id)
        if r.ratio > 1/2 then
          { st with
            our_to_new_matching := assocSet our_obj.id new_obj.id st.our_to_new_matching,
            matched_area := assocSet (our_obj.id, false) (r.union.getD 0) st.matched_area }
        else if r.ratio > 0 ∧
            ((r.intersection.getD 0 : ℚ) / ((new_sums new_obj.id : Int) : ℚ)) > engulf_threshold then
          st
        else
          engulfScan our_masks new_masks our_sums new_sums isthing_status engulf_threshold
            new_obj rest st

/-- The candidate loop of `merge_by_engulf`. -/
def engulfMatchCands (our_masks new_masks : Nat → Mask) (our_sums new_sums : Nat → Int)
    (isthing_status : Option Bool) (engulf_threshold : ℚ) (objs : List ObjectInfo) :
    List ObjectInfo → MergeState → MergeState
  | [], st => st
  | c :: cs, st =>
      if c.isthing ≠ isthing_status then
        engulfMatchCands our_masks new_masks our_sums new_sums isthing_status
          engulf_threshold objs cs st
      else
        engulfMatchCands our_masks new_masks our_sums new_sums isthing_status
          engulf_threshold objs cs
          (engulfScan our_masks new_masks our_sums new_sums isthing_status
            engulf_threshold c objs st)

/-- `merge_by_engulf`. -/
def merge_by_engulf (our_masks new_masks : Nat → Mask) (our_sums new_sums : Nat → Int)
    (merged_mask : LabelMask) (om : ObjectManager)
    (new_segments_info : List ObjectInfo) (isthing_status : Option Bool)
    (engulf_threshold : ℚ) : ObjectManager × LabelMask :=
  let st := engulfMatchCands our_masks new_masks our_sums new_sums isthing_status
              engulf_threshold om.objects new_segments_info ⟨[], [], []⟩
  let st := addCarriedOver our_sums isthing_status om.objects st
  renderAll our_masks new_masks st.our_to_new_matching new_segments_info
    (sortDesc st.matched_area) (om, merged_mask)

/-- `match_isthing = [None, False, True]`: the fixed category-type pass
order of `match_and_merge`. -/
def match_isthing : List (Option Bool) := [none, some false, some true]

/-- Strategy dispatch of one category pass of `match_and_merge` (`mode` is
already lowercased); an unrecognised mode leaves the accumulator
untouched. -/
def mergeStep (our_masks new_masks : Nat → Mask) (our_sums new_sums : Nat → Int)
    (cands : List ObjectInfo) (mode : String) (engulf_threshold : ℚ)
    (acc : ObjectManager × LabelMask) (isthing_status : Option Bool) :
    ObjectManager × LabelMask :=
  if mode = "iou" then
    merge_by_iou our_masks new_masks our_sums new_sums acc.2 acc.1 cands isthing_status
  else if mode = "engulf" then
    merge_by_engulf our_masks new_masks our_sums new_sums acc.2 acc.1 cands isthing_status
      engulf_threshold
  else acc

/-- Result of `match_and_merge`: mutated registry, output mask in dense
temp-index space, and whether the population-cap warning was emitted. -/
structure MergeResult where
  object_manager : ObjectManager
  mask : LabelMask
  warned : Bool
deriving DecidableEq, Repr

/-- `mode.lower()`: ASCII lowercase over the character list (kept
character-wise so the definition is kernel-computable). -/
def strLower (s : String) : String := ⟨s.data.map Char.toLower⟩

/-- `match_and_merge`. -/
def match_and_merge (our_mask new_mask : LabelMask) (om : ObjectManager)
    (new_segments_info : List ObjectInfo) (mode : String)
    (max_num_objects : Int) (engulf_threshold : ℚ) : MergeResult :=
  let mode := strLower mode
  let our_masks : Nat → Mask := fun oid => our_mask.map (fun v => v == om.tmp_id_of oid)
  let new_masks0 : Nat → Mask := fun nid => new_mask.map (fun v => v == nid)
  let exceeded : Bool :=
    decide (max_num_objects > 0) &&
    decide ((om.all_historical_object_ids.length + new_segments_info.length : Int)
      > max_num_objects)
  let cands := if exceeded = true then [] else new_segments_info
  let new_masks := if exceeded = true then (fun _ => new_mask.map (fun _ => false))
                   else new_masks0
  let our_sums : Nat → Int := fun oid => (maskSum (our_masks oid) : Int)
  let new_sums : Nat → Int := fun nid => (maskSum (new_masks nid) : Int)
  let merged0 : LabelMask := our_mask.map (fun _ => 0)
  let res := match_isthing.foldl
    (mergeStep our_masks new_masks our_sums new_sums cands mode engulf_threshold)
    (om, merged0)
  let out := res.1.make_one_hot res.2
  ⟨out.1, out.2, exceeded⟩

end SegMerge

namespace SegMerge

/-! ### Basic mask-algebra lemmas -/

theorem maskInter_comm (a b : Mask) : maskInter a b = maskInter b a := by
  unfold maskInter
  congr 1
  induction a generalizing b with
  | nil => cases b <;> rfl
  | cons x xs ih =>
    cases b with
    | nil => rfl
    | cons y ys => simp [List.zipWith, Bool.and_comm, ih]

theorem get_iou_comm (a b : Mask) (sa sb : Int) :
    get_iou a b sa sb = get_iou b a sb sa := by
  simp only [get_iou, maskInter_comm b a, Int.add_comm sb sa]

/-- C8: the IoU computation is symmetric: for any two masks with nonzero
overlap and the correct precomputed pixel sums, `_get_iou(a, b, sum_a,
sum_b)` and `_get_iou(b, a, sum_b, sum_a)` agree in ratio, intersection
and union. -/
theorem get_iou_symmetric (a b : Mask) (sa sb : Int)
    (hover : maskInter a b ≠ 0)
    (ha : sa = (maskSum a : Int)) (hb : sb = (maskSum b : Int)) :
    get_iou a b sa sb = get_iou b a sb sa :=
  get_iou_comm a b sa sb

theorem get_iou_symmetric_witness :
    maskInter [true, true] [true, false] ≠ 0 ∧
    get_iou [true, true] [true, false] 2 1 = get_iou [true, false] [true, true] 1 2 :=
  ⟨by decide, get_iou_symmetric [true, true] [true, false] 2 1 (by decide) (by decide) (by decide)⟩

/-- C9: `match_and_merge` is deterministic: two calls with identical
masks, candidate lists, configuration and registry snapshots produce
identical results (output mask, warning flag, and all registry mutations). -/
theorem match_and_merge_deterministic (our1 our2 new1 new2 : LabelMask)
    (om1 om2 : ObjectManager) (c1 c2 : List ObjectInfo) (mode1 mode2 : String)
    (mx1 mx2 : Int) (t1 t2 : ℚ)
    (h1 : our1 = our2) (h2 : new1 = new2) (h3 : om1 = om2) (h4 : c1 = c2)
    (h5 : mode1 = mode2) (h6 : mx1 = mx2) (h7 : t1 = t2) :
    match_and_merge our1 new1 om1 c1 mode1 mx1 t1 =
      match_and_merge our2 new2 om2 c2 mode2 mx2 t2 := by
  subst h1; subst h2; subst h3; subst h4; subst h5; subst h6; subst h7; rfl

theorem match_and_merge_deterministic_witness :
    match_and_merge [0, 1] [5, 0] ⟨[⟨3, some true, 1, 0⟩], [3], 4⟩
        [⟨5, some true, 1, 0⟩] "iou" (-1) (1/5) =
      match_and_merge [0, 1] [5, 0] ⟨[⟨3, some true, 1, 0⟩], [3], 4⟩
        [⟨5, some true, 1, 0⟩] "iou" (-1) (1/5) :=
  match_and_merge_deterministic _ _ _ _ _ _ _ _ _ _ _ _ _ _
    rfl rfl rfl rfl rfl rfl rfl

end SegMerge

namespace SegMerge

/-! ### Association-list and sorting toolkit -/

theorem mem_assocSet {α β : Type} [DecidableEq α] (k : α) (v : β) :
    ∀ (l : List (α × β)) (x : α × β), x ∈ assocSet k v l → x = (k, v) ∨ x ∈ l := by
  intro l
  induction l with
  | nil => intro x hx; simpa [assocSet] using hx
  | cons y ys ih =>
    intro x hx
    by_cases h : y.1 = k
    · rw [show y = (y.1, y.2) from rfl, assocSet, if_pos h] at hx
      rcases List.mem_cons.mp hx with h' | h'
      · exact Or.inl h'
      · exact Or.inr (List.mem_cons_of_mem y h')
    · rw [show y = (y.1, y.2) from rfl, assocSet, if_neg h] at hx
      rcases List.mem_cons.mp hx with h' | h'
      · exact Or.inr (by simp [h'])
      · rcases ih x h' with h'' | h''
        · exact Or.inl h''
        · exact Or.inr (List.mem_cons_of_mem y h'')

theorem alookup_nil {α β : Type} [DecidableEq α] (k : α) :
    alookup k ([] : List (α × β)) = none := rfl

theorem insertDesc_perm (x : (Nat × Bool) × Int) :
    ∀ l : List ((Nat × Bool) × Int), (insertDesc x l).Perm (x :: l) := by
  intro l
  induction l with
  | nil => simp [insertDesc]
  | cons y ys ih =>
    rw [insertDesc]
    by_cases h : y.2 ≥ x.2
    · rw [if_pos h]
      exact ((ih.cons y).trans (List.Perm.swap x y ys))
    · rw [if_neg h]

theorem sortDesc_aux_perm :
    ∀ (l acc : List ((Nat × Bool) × Int)),
      (l.foldl (fun acc x => insertDesc x acc) acc).Perm (acc ++ l) := by
  intro l
  induction l with
  | nil => intro acc; simp
  | cons x xs ih =>
    intro acc
    rw [List.foldl_cons]
    refine (ih (insertDesc x acc)).trans ?_
    have h1 : (insertDesc x acc ++ xs).Perm ((x :: acc) ++ xs) :=
      (insertDesc_perm x acc).append_right xs
    refine h1.trans ?_
    simpa using List.perm_middle.symm

theorem sortDesc_perm (l : List ((Nat × Bool) × Int)) : (sortDesc l).Perm l := by
  simpa using sortDesc_aux_perm l []

theorem mem_sortDesc {l : List ((Nat × Bool) × Int)} {x : (Nat × Bool) × Int} :
    x ∈ sortDesc l ↔ x ∈ l :=
  (sortDesc_perm l).mem_iff

/-! ### Rendering with only carried-over entries -/

/-- With an empty matching dictionary and only carried-over entries the
rendering loop reduces to poking and repainting each entry, independently
of the candidate list. -/
theorem renderAll_carried (our_masks new_masks : Nat → Mask) (cands : List ObjectInfo) :
    ∀ (entries : List ((Nat × Bool) × Int)) (acc : ObjectManager × LabelMask),
      (∀ e ∈ entries, e.1.2 = false) →
      renderAll our_masks new_masks [] cands entries acc =
        entries.foldl
          (fun a e => (a.1.poke e.1.1, writeMask a.2 (our_masks e.1.1) e.1.1)) acc := by
  intro entries
  induction entries with
  | nil => intro acc _; rfl
  | cons e es ih =>
    intro acc hf
    rw [renderAll, List.foldl_cons]
    have he : e.1.2 = false := hf e (List.mem_cons_self e es)
    have hstep : renderEntry our_masks new_masks [] cands acc e =
        (acc.1.poke e.1.1, writeMask acc.2 (our_masks e.1.1) e.1.1) := by
      rw [renderEntry, he]
      simp [alookup_nil]
    rw [hstep]
    exact ih _ (fun e' h' => hf e' (List.mem_cons_of_mem e h'))

theorem addCarriedOver_matching (our_sums : Nat → Int) (s : Option Bool) :
    ∀ (objs : List ObjectInfo) (st : MergeState),
      (addCarriedOver our_sums s objs st).our_to_new_matching = st.our_to_new_matching ∧
      (addCarriedOver our_sums s objs st).new_objects = st.new_objects := by
  intro objs
  induction objs with
  | nil => intro st; exact ⟨rfl, rfl⟩
  | cons o rest ih =>
    intro st
    rw [addCarriedOver]
    by_cases h : o.isthing ≠ s ∨ (alookup o.id st.our_to_new_matching).isSome = true
    · rw [if_pos h]; exact ih st
    · rw [if_neg h]; exact ih _

theorem addCarriedOver_false_keys (our_sums : Nat → Int) (s : Option Bool) :
    ∀ (objs : List ObjectInfo) (st : MergeState),
      (∀ e ∈ st.matched_area, e.1.2 = false) →
      ∀ e ∈ (addCarriedOver our_sums s objs st).matched_area, e.1.2 = false := by
  intro objs
  induction objs with
  | nil => intro st h; exact h
  | cons o rest ih =>
    intro st h
    rw [addCarriedOver]
    by_cases hc : o.isthing ≠ s ∨ (alookup o.id st.our_to_new_matching).isSome = true
    · rw [if_pos hc]; exact ih st h
    · rw [if_neg hc]
      refine ih _ ?_
      intro e he
      rcases mem_assocSet _ _ _ _ he with h' | h'
      · rw [h']
      · exact h e h'

end SegMerge

namespace SegMerge

/-! ### Engulf-mode discard (C5) -/

theorem engulfScan_discard (our_masks new_masks : Nat → Mask) (our_sums new_sums : Nat → Int)
    (s : Option Bool) (thr : ℚ) (c : ObjectInfo) :
    ∀ (objs : List ObjectInfo) (st : MergeState),
      (∀ o ∈ objs, o.isthing = s →
        ¬((get_iou (new_masks c.id) (our_masks o.id) (new_sums c.id) (our_sums o.id)).ratio
            > 1/2)) →
      (∃ o ∈ objs, o.isthing = s ∧
        (get_iou (new_masks c.id) (our_masks o.id) (new_sums c.id) (our_sums o.id)).ratio > 0 ∧
        (((get_iou (new_masks c.id) (our_masks o.id) (new_sums c.id)
            (our_sums o.id)).intersection.getD 0 : ℚ) / ((new_sums c.id : Int) : ℚ)) > thr) →
      engulfScan our_masks new_masks our_sums new_sums s thr c objs st = st := by
  intro objs
  induction objs with
  | nil =>
    intro st _ hcov
    obtain ⟨o, ho, _⟩ := hcov
    exact absurd ho (List.not_mem_nil o)
  | cons o rest ih =>
    intro st hno hcov
    by_cases hs : o.isthing = s
    · have hnotlt :
          ¬((get_iou (new_masks c.id) (our_masks o.id) (new_sums c.id)
              (our_sums o.id)).ratio > 1/2) :=
        hno o (List.mem_cons_self o rest) hs
      by_cases hdis :
          (get_iou (new_masks c.id) (our_masks o.id) (new_sums c.id)
            (our_sums o.id)).ratio > 0 ∧
          (((get_iou (new_masks c.id) (our_masks o.id) (new_sums c.id)
              (our_sums o.id)).intersection.getD 0 : ℚ) /
            ((new_sums c.id : Int) : ℚ)) > thr
      · simp only [engulfScan]
        rw [if_neg (not_not_intro hs), if_neg hnotlt, if_pos hdis]
      · have hcov' : ∃ o' ∈ rest, o'.isthing = s ∧
            (get_iou (new_masks c.id) (our_masks o'.id) (new_sums c.id)
              (our_sums o'.id)).ratio > 0 ∧
            (((get_iou (new_masks c.id) (our_masks o'.id) (new_sums c.id)
                (our_sums o'.id)).intersection.getD 0 : ℚ) /
              ((new_sums c.id : Int) : ℚ)) > thr := by
          obtain ⟨o', ho', hs', hrest⟩ := hcov
          rcases List.mem_cons.mp ho' with h | h
          · subst h
            exact absurd ⟨hrest.1, hrest.2⟩ hdis
          · exact ⟨o', h, hs', hrest⟩
        simp only [engulfScan]
        rw [if_neg (not_not_intro hs), if_neg hnotlt, if_neg hdis]
        exact ih st (fun o' h' => hno o' (List.mem_cons_of_mem o h')) hcov'
    · have hcov' : ∃ o' ∈ rest, o'.isthing = s ∧
          (get_iou (new_masks c.id) (our_masks o'.id) (new_sums c.id)
            (our_sums o'.id)).ratio > 0 ∧
          (((get_iou (new_masks c.id) (our_masks o'.id) (new_sums c.id)
              (our_sums o'.id)).intersection.getD 0 : ℚ) /
            ((new_sums c.id : Int) : ℚ)) > thr := by
        obtain ⟨o', ho', hs', hrest⟩ := hcov
        rcases List.mem_cons.mp ho' with h | h
        · subst h; exact absurd hs' hs
        · exact ⟨o', h, hs', hrest⟩
      simp only [engulfScan]
      rw [if_pos hs]
      exact ih st (fun o' h' => hno o' (List.mem_cons_of_mem o h')) hcov'

end SegMerge

namespace SegMerge

/-- C5: in engulf mode, a candidate whose IoU with every existing
same-category object is at most `0.5` but whose own-area coverage
fraction by some existing same-category object exceeds
`engulf_threshold` is discarded outright: its object scan leaves the
matching state untouched (no match, no new-object record, no render
entry), and a merge call seeing only this candidate produces exactly the
output of a merge call with no candidates at all. -/
theorem engulf_discards_covered_candidate
    (our_masks new_masks : Nat → Mask) (our_sums new_sums : Nat → Int)
    (s : Option Bool) (thr : ℚ) (c : ObjectInfo) (om : ObjectManager)
    (merged : LabelMask) (st : MergeState)
    (hc : c.isthing = s)
    (hno : ∀ o ∈ om.objects, o.isthing = s →
      ¬((get_iou (new_masks c.id) (our_masks o.id) (new_sums c.id) (our_sums o.id)).ratio
          > 1/2))
    (hcov : ∃ o ∈ om.objects, o.isthing = s ∧
      (get_iou (new_masks c.id) (our_masks o.id) (new_sums c.id) (our_sums o.id)).ratio > 0 ∧
      (((get_iou (new_masks c.id) (our_masks o.id) (new_sums c.id)
          (our_sums o.id)).intersection.getD 0 : ℚ) / ((new_sums c.id : Int) : ℚ)) > thr) :
    engulfScan our_masks new_masks our_sums new_sums s thr c om.objects st = st ∧
    merge_by_engulf our_masks new_masks our_sums new_sums merged om [c] s thr =
      merge_by_engulf our_masks new_masks our_sums new_sums merged om [] s thr := by
  refine ⟨engulfScan_discard _ _ _ _ _ _ _ _ _ hno hcov, ?_⟩
  have hmc : engulfMatchCands our_masks new_masks our_sums new_sums s thr om.objects [c]
      ⟨[], [], []⟩ = ⟨[], [], []⟩ := by
    rw [engulfMatchCands, if_neg (not_not_intro hc), engulfMatchCands]
    exact engulfScan_discard our_masks new_masks our_sums new_sums s thr c om.objects
      ⟨[], [], []⟩ hno hcov
  have hmc0 : engulfMatchCands our_masks new_masks our_sums new_sums s thr om.objects []
      ⟨[], [], []⟩ = ⟨[], [], []⟩ := rfl
  simp only [merge_by_engulf]
  rw [hmc, hmc0]
  have hm : (addCarriedOver our_sums s om.objects ⟨[], [], []⟩).our_to_new_matching = [] :=
    (addCarriedOver_matching our_sums s om.objects ⟨[], [], []⟩).1
  have hfalse : ∀ e ∈ sortDesc (addCarriedOver our_sums s om.objects
      ⟨[], [], []⟩).matched_area, e.1.2 = false := by
    intro e he
    exact addCarriedOver_false_keys our_sums s om.objects ⟨[], [], []⟩
      (by intro e h; cases h) e (mem_sortDesc.mp he)
  rw [hm, renderAll_carried _ _ _ _ _ hfalse, renderAll_carried _ _ _ _ _ hfalse]

theorem engulf_witness_no_match :
    ¬((get_iou [true, false, false, false] [true, true, true, false] 1 3).ratio > 1/2) := by
  norm_num [get_iou, maskInter]

theorem engulf_witness_coverage :
    (get_iou [true, false, false, false] [true, true, true, false] 1 3).ratio > 0 ∧
    (((get_iou [true, false, false, false] [true, true, true, false] 1 3).intersection.getD 0
        : ℚ) / ((1 : Int) : ℚ)) > 1/5 := by
  norm_num [get_iou, maskInter]

theorem engulf_discards_covered_candidate_witness :
    engulfScan (fun _ => [true, true, true, false]) (fun _ => [true, false, false, false])
        (fun _ => 3) (fun _ => 1) (some true) (1/5) ⟨1, some true, 1, 0⟩
        [⟨10, some true, 1, 0⟩] ⟨[], [], []⟩ = ⟨[], [], []⟩ ∧
    merge_by_engulf (fun _ => [true, true, true, false]) (fun _ => [true, false, false, false])
        (fun _ => 3) (fun _ => 1) [0, 0, 0, 0] ⟨[⟨10, some true, 1, 0⟩], [10], 11⟩
        [⟨1, some true, 1, 0⟩] (some true) (1/5) =
      merge_by_engulf (fun _ => [true, true, true, false]) (fun _ => [true, false, false, false])
        (fun _ => 3) (fun _ => 1) [0, 0, 0, 0] ⟨[⟨10, some true, 1, 0⟩], [10], 11⟩
        [] (some true) (1/5) :=
  engulf_discards_covered_candidate
    (fun _ => [true, true, true, false]) (fun _ => [true, false, false, false])
    (fun _ => 3) (fun _ => 1) (some true) (1/5) ⟨1, some true, 1, 0⟩
    ⟨[⟨10, some true, 1, 0⟩], [10], 11⟩ [0, 0, 0, 0] ⟨[], [], []⟩
    rfl
    (by
      intro o ho hs
      rw [List.mem_singleton] at ho
      subst ho
      exact engulf_witness_no_match)
    ⟨⟨10, some true, 1, 0⟩, List.mem_singleton.mpr rfl, rfl,
      engulf_witness_coverage.1, engulf_witness_coverage.2⟩

end SegMerge

namespace SegMerge

/-! ### First-match semantics of the IoU scan (C4) -/

/-- Refinement reference, written from the spec's words (4.2 step 1): the
first existing object, in registry iteration order, of the same
category-type and not yet matched, whose IoU with the candidate exceeds
`0.5`. -/
def specFirstIouMatch (our_masks new_masks : Nat → Mask) (our_sums new_sums : Nat → Int)
    (s : Option Bool) (st : MergeState) (c : ObjectInfo) (objs : List ObjectInfo) :
    Option ObjectInfo :=
  objs.find? (fun o => decide (o.isthing = s) &&
    !(alookup o.id st.our_to_new_matching).isSome &&
    decide ((get_iou (new_masks c.id) (our_masks o.id) (new_sums c.id)
      (our_sums o.id)).ratio > 1/2))

theorem specFirstIouMatch_cons (our_masks new_masks : Nat → Mask)
    (our_sums new_sums : Nat → Int) (s : Option Bool) (st : MergeState) (c o : ObjectInfo)
    (rest : List ObjectInfo) :
    specFirstIouMatch our_masks new_masks our_sums new_sums s st c (o :: rest) =
      if o.isthing = s ∧ (alookup o.id st.our_to_new_matching).isSome = false ∧
          (get_iou (new_masks c.id) (our_masks o.id) (new_sums c.id)
            (our_sums o.id)).ratio > 1/2
      then some o
      else specFirstIouMatch our_masks new_masks our_sums new_sums s st c rest := by
  simp only [specFirstIouMatch]
  by_cases h : o.isthing = s ∧ (alookup o.id st.our_to_new_matching).isSome = false ∧
      (get_iou (new_masks c.id) (our_masks o.id) (new_sums c.id) (our_sums o.id)).ratio > 1/2
  · rw [if_pos h]
    refine List.find?_cons_of_pos rest ?_
    simp only [Bool.and_eq_true, decide_eq_true_eq, Bool.not_eq_true']
    exact ⟨⟨h.1, h.2.1⟩, h.2.2⟩
  · rw [if_neg h]
    refine List.find?_cons_of_neg rest ?_
    simp only [Bool.and_eq_true, decide_eq_true_eq, Bool.not_eq_true']
    intro hc
    exact h ⟨hc.1.1, hc.1.2, hc.2⟩

/-- C4: in iou mode the candidate scan implements first-match semantics:
if the spec-side "first qualifying object" search returns `o`, the scan
records exactly the match of `o` to the candidate, keyed by the pair's
union area; if no existing object qualifies, the candidate becomes a
new-object entry keyed by its own pixel sum. -/
theorem iouScan_first_match (our_masks new_masks : Nat → Mask) (our_sums new_sums : Nat → Int)
    (s : Option Bool) (c : ObjectInfo) :
    ∀ (objs : List ObjectInfo) (st : MergeState),
      (∀ o : ObjectInfo,
        specFirstIouMatch our_masks new_masks our_sums new_sums s st c objs = some o →
        iouScan our_masks new_masks our_sums new_sums s c objs st =
          { st with
            our_to_new_matching := assocSet o.id c.id st.our_to_new_matching,
            matched_area := assocSet (o.id, false)
              ((get_iou (new_masks c.id) (our_masks o.id) (new_sums c.id)
                (our_sums o.id)).union.getD 0) st.matched_area }) ∧
      (specFirstIouMatch our_masks new_masks our_sums new_sums s st c objs = none →
        iouScan our_masks new_masks our_sums new_sums s c objs st =
          { st with
            new_objects := st.new_objects ++ [c.id],
            matched_area := assocSet (c.id, true) (new_sums c.id) st.matched_area }) := by
  intro objs
  induction objs with
  | nil =>
    intro st
    constructor
    · intro o h
      exact absurd h (by simp [specFirstIouMatch])
    · intro _
      rfl
  | cons o rest ih =>
    intro st
    by_cases hcond : o.isthing = s ∧ (alookup o.id st.our_to_new_matching).isSome = false ∧
        (get_iou (new_masks c.id) (our_masks o.id) (new_sums c.id)
          (our_sums o.id)).ratio > 1/2
    · have hnskip : ¬(o.isthing ≠ s ∨
          (alookup o.id st.our_to_new_matching).isSome = true) := by
        rw [not_or]
        exact ⟨not_not_intro hcond.1, by simp [hcond.2.1]⟩
      constructor
      · intro o' h'
        rw [specFirstIouMatch_cons, if_pos hcond] at h'
        injection h' with h''
        subst h''
        simp only [iouScan]
        rw [if_neg hnskip, if_pos hcond.2.2]
      · intro h'
        rw [specFirstIouMatch_cons, if_pos hcond] at h'
        exact absurd h' (by simp)
    · constructor
      · intro o' h'
        rw [specFirstIouMatch_cons, if_neg hcond] at h'
        simp only [iouScan]
        by_cases hskip : o.isthing ≠ s ∨ (alookup o.id st.our_to_new_matching).isSome = true
        · rw [if_pos hskip]
          exact (ih st).1 o' h'
        · rw [if_neg hskip]
          rw [not_or] at hskip
          have hs := not_not.mp hskip.1
          have hm : (alookup o.id st.our_to_new_matching).isSome = false :=
            Bool.eq_false_iff.mpr hskip.2
          have hr : ¬((get_iou (new_masks c.id) (our_masks o.id) (new_sums c.id)
              (our_sums o.id)).ratio > 1/2) := fun hr => hcond ⟨hs, hm, hr⟩
          rw [if_neg hr]
          exact (ih st).1 o' h'
      · intro h'
        rw [specFirstIouMatch_cons, if_neg hcond] at h'
        simp only [iouScan]
        by_cases hskip : o.isthing ≠ s ∨ (alookup o.id st.our_to_new_matching).isSome = true
        · rw [if_pos hskip]
          exact (ih st).2 h'
        · rw [if_neg hskip]
          rw [not_or] at hskip
          have hs := not_not.mp hskip.1
          have hm : (alookup o.id st.our_to_new_matching).isSome = false :=
            Bool.eq_false_iff.mpr hskip.2
          have hr : ¬((get_iou (new_masks c.id) (our_masks o.id) (new_sums c.id)
              (our_sums o.id)).ratio > 1/2) := fun hr => hcond ⟨hs, hm, hr⟩
          rw [if_neg hr]
          exact (ih st).2 h'

theorem iou_witness_spec_match :
    specFirstIouMatch (fun _ => [true, true, true, false])
      (fun _ => [true, true, false, false]) (fun _ => 3) (fun _ => 2) (some true)
      ⟨[], [], []⟩ ⟨1, some true, 1, 0⟩ [⟨10, some true, 1, 3⟩] =
      some ⟨10, some true, 1, 3⟩ := by
  rw [specFirstIouMatch_cons, if_pos]
  refine ⟨rfl, rfl, ?_⟩
  norm_num [get_iou, maskInter]

theorem iouScan_first_match_witness :
    iouScan (fun _ => [true, true, true, false]) (fun _ => [true, true, false, false])
        (fun _ => 3) (fun _ => 2) (some true) ⟨1, some true, 1, 0⟩
        [⟨10, some true, 1, 3⟩] ⟨[], [], []⟩ =
      { (⟨[], [], []⟩ : MergeState) with
        our_to_new_matching := assocSet 10 1 [],
        matched_area := assocSet (10, false)
          ((get_iou [true, true, false, false] [true, true, true, false] 2 3).union.getD 0)
          [] } :=
  (iouScan_first_match (fun _ => [true, true, true, false])
    (fun _ => [true, true, false, false]) (fun _ => 3) (fun _ => 2) (some true)
    ⟨1, some true, 1, 0⟩ [⟨10, some true, 1, 3⟩] ⟨[], [], []⟩).1
    ⟨10, some true, 1, 3⟩ iou_witness_spec_match

end SegMerge

namespace SegMerge

/-! ### Pointwise behaviour of mask writes -/

theorem writeMask_length (lab : LabelMask) (m : Mask) (v : Nat) :
    (writeMask lab m v).length = min m.length lab.length := by
  simp [writeMask]

theorem writeMask_getD (v : Nat) :
    ∀ (m : Mask) (lab : LabelMask) (p : Nat), p < lab.length → m.length = lab.length →
      (writeMask lab m v).getD p 0 =
        if m.getD p false = true then v else lab.getD p 0 := by
  intro m
  induction m with
  | nil =>
    intro lab p hp hl
    cases lab with
    | nil => exact absurd hp (by simp)
    | cons x xs => exact absurd hl (by simp)
  | cons b bs ih =>
    intro lab p hp hl
    cases lab with
    | nil => exact absurd hp (by simp)
    | cons x xs =>
      cases p with
      | zero => cases b <;> simp [writeMask]
      | succ p =>
        have hp' : p < xs.length := Nat.lt_of_succ_lt_succ hp
        have hl' : bs.length = xs.length := by simpa using hl
        simpa [writeMask] using ih xs p hp' hl'

end SegMerge

namespace SegMerge

/-! ### Re-matching in engulf mode (C10) -/

/-- C10: in engulf mode an already-matched object is still scanned for
later candidates, and a later candidate with IoU above `0.5` overwrites
the earlier entry of the matching map in place: with one existing object
`o` and two candidates `c1, c2` both exceeding IoU `0.5` with `o`, the
final matching maps `o` to `c2` only, no new-object entry exists, the
merge call merges exactly `c2` into `o` (no new record, history
unchanged), and every pixel outside `o`'s and `c2`'s masks — in
particular any pixel only in the displaced candidate `c1`'s mask — is
left untouched by the rendering. -/
theorem engulf_rematch_overwrites
    (our_masks new_masks : Nat → Mask) (our_sums new_sums : Nat → Int)
    (s : Option Bool) (thr : ℚ) (o c1 c2 : ObjectInfo) (hist : List Nat) (nid : Nat)
    (merged : LabelMask)
    (ho : o.isthing = s) (h1 : c1.isthing = s) (h2 : c2.isthing = s)
    (hne : c1.id ≠ c2.id)
    (hr1 : (get_iou (new_masks c1.id) (our_masks o.id) (new_sums c1.id)
      (our_sums o.id)).ratio > 1/2)
    (hr2 : (get_iou (new_masks c2.id) (our_masks o.id) (new_sums c2.id)
      (our_sums o.id)).ratio > 1/2)
    (hl1 : (our_masks o.id).length = merged.length)
    (hl2 : (new_masks c2.id).length = merged.length) :
    (engulfMatchCands our_masks new_masks our_sums new_sums s thr [o] [c1, c2]
        ⟨[], [], []⟩).our_to_new_matching = [(o.id, c2.id)] ∧
    (engulfMatchCands our_masks new_masks our_sums new_sums s thr [o] [c1, c2]
        ⟨[], [], []⟩).new_objects = [] ∧
    (merge_by_engulf our_masks new_masks our_sums new_sums merged ⟨[o], hist, nid⟩
        [c1, c2] s thr).1.all_historical_object_ids = hist ∧
    (merge_by_engulf our_masks new_masks our_sums new_sums merged ⟨[o], hist, nid⟩
        [c1, c2] s thr).1.objects =
      [{ o with score := max o.score c2.score, poke_count := 0 }] ∧
    (∀ p, p < merged.length → (our_masks o.id).getD p false = false →
      (new_masks c2.id).getD p false = false →
      (merge_by_engulf our_masks new_masks our_sums new_sums merged ⟨[o], hist, nid⟩
          [c1, c2] s thr).2.getD p 0 = merged.getD p 0) := by
  have hsc1 : engulfScan our_masks new_masks our_sums new_sums s thr c1 [o] ⟨[], [], []⟩ =
      ⟨[(o.id, c1.id)],
        [((o.id, false),
          (get_iou (new_masks c1.id) (our_masks o.id) (new_sums c1.id)
            (our_sums o.id)).union.getD 0)], []⟩ := by
    simp only [engulfScan]
    rw [if_neg (not_not_intro ho), if_pos hr1]
    rfl
  have hsc2 : engulfScan our_masks new_masks our_sums new_sums s thr c2 [o]
      ⟨[(o.id, c1.id)],
        [((o.id, false),
          (get_iou (new_masks c1.id) (our_masks o.id) (new_sums c1.id)
            (our_sums o.id)).union.getD 0)], []⟩ =
      ⟨[(o.id, c2.id)],
        [((o.id, false),
          (get_iou (new_masks c2.id) (our_masks o.id) (new_sums c2.id)
            (our_sums o.id)).union.getD 0)], []⟩ := by
    simp only [engulfScan]
    rw [if_neg (not_not_intro ho), if_pos hr2]
    simp [assocSet]
  have hmc : engulfMatchCands our_masks new_masks our_sums new_sums s thr [o] [c1, c2]
      ⟨[], [], []⟩ =
      ⟨[(o.id, c2.id)],
        [((o.id, false),
          (get_iou (new_masks c2.id) (our_masks o.id) (new_sums c2.id)
            (our_sums o.id)).union.getD 0)], []⟩ := by
    simp only [engulfMatchCands]
    rw [if_neg (not_not_intro h1), if_neg (not_not_intro h2), hsc1, hsc2]
  have hlook : alookup o.id [(o.id, c2.id)] = some c2.id := by
    simp [alookup]
  have hcarry : addCarriedOver our_sums s [o]
      (⟨[(o.id, c2.id)],
        [((o.id, false),
          (get_iou (new_masks c2.id) (our_masks o.id) (new_sums c2.id)
            (our_sums o.id)).union.getD 0)], []⟩ : MergeState) =
      ⟨[(o.id, c2.id)],
        [((o.id, false),
          (get_iou (new_masks c2.id) (our_masks o.id) (new_sums c2.id)
            (our_sums o.id)).union.getD 0)], []⟩ := by
    rw [addCarriedOver, if_pos (Or.inr (by rw [hlook]; rfl)), addCarriedOver]
  have hfc : findCand [c1, c2] c2.id = c2 := by
    have hbeq : (c1.id == c2.id) = false := by
      simpa using hne
    simp [findCand, List.find?, hbeq]
  have hrender : merge_by_engulf our_masks new_masks our_sums new_sums merged
      ⟨[o], hist, nid⟩ [c1, c2] s thr =
      (((⟨[o], hist, nid⟩ : ObjectManager).merge_obj o.id c2).unpoke o.id,
        writeMask (writeMask merged (our_masks o.id) o.id) (new_masks c2.id) o.id) := by
    show renderAll our_masks new_masks _ [c1, c2]
        (sortDesc (addCarriedOver our_sums s [o] (engulfMatchCands our_masks new_masks
          our_sums new_sums s thr [o] [c1, c2] ⟨[], [], []⟩)).matched_area)
        (⟨[o], hist, nid⟩, merged) = _
    rw [hmc, hcarry]
    show renderAll our_masks new_masks [(o.id, c2.id)] [c1, c2]
        [((o.id, false),
          (get_iou (new_masks c2.id) (our_masks o.id) (new_sums c2.id)
            (our_sums o.id)).union.getD 0)] (⟨[o], hist, nid⟩, merged) = _
    rw [renderAll, renderEntry]
    simp only [Bool.false_eq_true, if_false, hlook, hfc]
    rfl
  refine ⟨by rw [hmc], by rw [hmc], by rw [hrender]; rfl, ?_, ?_⟩
  · rw [hrender]
    show ([o].map _).map _ = _
    simp [ObjectManager.merge_obj, ObjectManager.unpoke, ObjectManager.update_obj]
  · intro p hp hb1 hb2
    rw [hrender]
    have hlen1 : (writeMask merged (our_masks o.id) o.id).length = merged.length := by
      rw [writeMask_length, hl1, Nat.min_self]
    have h2' := writeMask_getD o.id (new_masks c2.id)
      (writeMask merged (our_masks o.id) o.id) p (by rw [hlen1]; exact hp)
      (by rw [hlen1, hl2])
    rw [h2', hb2]
    simp only [Bool.false_eq_true, if_false]
    have h1' := writeMask_getD o.id (our_masks o.id) merged p hp hl1
    rw [h1', hb1]
    simp

end SegMerge

namespace SegMerge

theorem engulf_rematch_ratio1 :
    (get_iou [true, true, true, false] [true, true, true, false] 3 3).ratio > 1/2 := by
  norm_num [get_iou, maskInter]

theorem engulf_rematch_ratio2 :
    (get_iou [true, true, true, true] [true, true, true, false] 4 3).ratio > 1/2 := by
  norm_num [get_iou, maskInter]

theorem engulf_rematch_overwrites_witness :
    (engulfMatchCands (fun _ => [true, true, true, false])
        (fun nid => if nid = 1 then [true, true, true, false] else [true, true, true, true])
        (fun _ => 3) (fun nid => if nid = 1 then 3 else 4) (some true) (1/5)
        [⟨10, some true, 1, 4⟩] [⟨1, some true, 1, 0⟩, ⟨2, some true, 2, 0⟩]
        ⟨[], [], []⟩).our_to_new_matching = [(10, 2)] ∧
    (engulfMatchCands (fun _ => [true, true, true, false])
        (fun nid => if nid = 1 then [true, true, true, false] else [true, true, true, true])
        (fun _ => 3) (fun nid => if nid = 1 then 3 else 4) (some true) (1/5)
        [⟨10, some true, 1, 4⟩] [⟨1, some true, 1, 0⟩, ⟨2, some true, 2, 0⟩]
        ⟨[], [], []⟩).new_objects = [] ∧
    (merge_by_engulf (fun _ => [true, true, true, false])
        (fun nid => if nid = 1 then [true, true, true, false] else [true, true, true, true])
        (fun _ => 3) (fun nid => if nid = 1 then 3 else 4) [0, 0, 0, 0]
        ⟨[⟨10, some true, 1, 4⟩], [10], 11⟩
        [⟨1, some true, 1, 0⟩, ⟨2, some true, 2, 0⟩] (some true)
        (1/5)).1.all_historical_object_ids = [10] ∧
    (merge_by_engulf (fun _ => [true, true, true, false])
        (fun nid => if nid = 1 then [true, true, true, false] else [true, true, true, true])
        (fun _ => 3) (fun nid => if nid = 1 then 3 else 4) [0, 0, 0, 0]
        ⟨[⟨10, some true, 1, 4⟩], [10], 11⟩
        [⟨1, some true, 1, 0⟩, ⟨2, some true, 2, 0⟩] (some true)
        (1/5)).1.objects =
      [{ (⟨10, some true, 1, 4⟩ : ObjectInfo) with
          score := max (1 : ℚ) (2 : ℚ), poke_count := 0 }] ∧
    (∀ p, p < ([0, 0, 0, 0] : LabelMask).length →
      ([true, true, true, false] : Mask).getD p false = false →
      ([true, true, true, true] : Mask).getD p false = false →
      (merge_by_engulf (fun _ => [true, true, true, false])
          (fun nid => if nid = 1 then [true, true, true, false] else [true, true, true, true])
          (fun _ => 3) (fun nid => if nid = 1 then 3 else 4) [0, 0, 0, 0]
          ⟨[⟨10, some true, 1, 4⟩], [10], 11⟩
          [⟨1, some true, 1, 0⟩, ⟨2, some true, 2, 0⟩] (some true)
          (1/5)).2.getD p 0 = ([0, 0, 0, 0] : LabelMask).getD p 0) :=
  engulf_rematch_overwrites
    (fun _ => [true, true, true, false])
    (fun nid => if nid = 1 then [true, true, true, false] else [true, true, true, true])
    (fun _ => 3) (fun nid => if nid = 1 then 3 else 4) (some true) (1/5)
    ⟨10, some true, 1, 4⟩ ⟨1, some true, 1, 0⟩ ⟨2, some true, 2, 0⟩ [10] 11 [0, 0, 0, 0]
    rfl rfl rfl (by decide) engulf_rematch_ratio1 engulf_rematch_ratio2 rfl rfl

end SegMerge

namespace SegMerge

/-! ### Area-ordered rendering and overlap resolution (C1) -/

/-- C1 (amended): rendering walks the entries in descending area order, so
the larger segment is written first and the smaller one afterwards; for a
pixel claimed by two new candidates the entry with the smaller area owns
it.  With an empty registry and two same-category candidates `c1, c2`
with `area c1 > area c2`, any pixel in both masks ends up with the
identity freshly allocated to `c2` — the smaller candidate. -/
theorem render_overlap_smaller_wins
    (our_masks new_masks : Nat → Mask) (our_sums new_sums : Nat → Int)
    (s : Option Bool) (c1 c2 : ObjectInfo) (hist : List Nat) (nid : Nat)
    (merged : LabelMask) (p : Nat)
    (h1 : c1.isthing = s) (h2 : c2.isthing = s) (hne : c1.id ≠ c2.id)
    (harea : new_sums c1.id > new_sums c2.id)
    (hb2 : (new_masks c2.id).getD p false = true)
    (hp : p < merged.length)
    (hl1 : (new_masks c1.id).length = merged.length)
    (hl2 : (new_masks c2.id).length = merged.length) :
    (merge_by_iou our_masks new_masks our_sums new_sums merged ⟨[], hist, nid⟩
        [c1, c2] s).2.getD p 0 = nid + 1 ∧
    (merge_by_iou our_masks new_masks our_sums new_sums merged ⟨[], hist, nid⟩
        [c1, c2] s).1.objects =
      [{ c1 with id := nid, poke_count := 0 }, { c2 with id := nid + 1, poke_count := 0 }] := by
  have hsc1 : iouScan our_masks new_masks our_sums new_sums s c1 [] ⟨[], [], []⟩ =
      ⟨[], [((c1.id, true), new_sums c1.id)], [c1.id]⟩ := rfl
  have hsc2 : iouScan our_masks new_masks our_sums new_sums s c2 []
      ⟨[], [((c1.id, true), new_sums c1.id)], [c1.id]⟩ =
      ⟨[], [((c1.id, true), new_sums c1.id), ((c2.id, true), new_sums c2.id)],
        [c1.id, c2.id]⟩ := by
    simp [iouScan, assocSet, hne]
  have hmc : iouMatchCands our_masks new_masks our_sums new_sums s [] [c1, c2]
      ⟨[], [], []⟩ =
      ⟨[], [((c1.id, true), new_sums c1.id), ((c2.id, true), new_sums c2.id)],
        [c1.id, c2.id]⟩ := by
    simp only [iouMatchCands]
    rw [if_neg (not_not_intro h1), if_neg (not_not_intro h2), hsc1, hsc2]
  have hsort : sortDesc [((c1.id, true), new_sums c1.id), ((c2.id, true), new_sums c2.id)] =
      [((c1.id, true), new_sums c1.id), ((c2.id, true), new_sums c2.id)] := by
    show insertDesc _ (insertDesc _ []) = _
    rw [insertDesc, insertDesc, if_pos (le_of_lt harea), insertDesc]
  have hfc1 : findCand [c1, c2] c1.id = c1 := by
    simp [findCand, List.find?]
  have hfc2 : findCand [c1, c2] c2.id = c2 := by
    have hbeq : (c1.id == c2.id) = false := by simpa using hne
    simp [findCand, List.find?, hbeq]
  have hre : merge_by_iou our_masks new_masks our_sums new_sums merged ⟨[], hist, nid⟩
      [c1, c2] s =
      (⟨[{ c1 with id := nid, poke_count := 0 }, { c2 with id := nid + 1, poke_count := 0 }],
          (hist ++ [nid]) ++ [nid + 1], nid + 2⟩,
        writeMask (writeMask merged (new_masks c1.id) nid) (new_masks c2.id) (nid + 1)) := by
    show renderAll our_masks new_masks
        (addCarriedOver our_sums s [] (iouMatchCands our_masks new_masks our_sums new_sums s
          [] [c1, c2] ⟨[], [], []⟩)).our_to_new_matching [c1, c2]
        (sortDesc (addCarriedOver our_sums s [] (iouMatchCands our_masks new_masks our_sums
          new_sums s [] [c1, c2] ⟨[], [], []⟩)).matched_area)
        (⟨[], hist, nid⟩, merged) = _
    rw [hmc]
    show renderAll our_masks new_masks [] [c1, c2]
        (sortDesc [((c1.id, true), new_sums c1.id), ((c2.id, true), new_sums c2.id)])
        (⟨[], hist, nid⟩, merged) = _
    rw [hsort]
    have he1 : renderEntry our_masks new_masks [] [c1, c2] (⟨[], hist, nid⟩, merged)
        ((c1.id, true), new_sums c1.id) =
        (⟨[{ c1 with id := nid, poke_count := 0 }], hist ++ [nid], nid + 1⟩,
          writeMask merged (new_masks c1.id) nid) := by
      rw [renderEntry]
      simp only [eq_self_iff_true, if_true, hfc1, ObjectManager.add_new_objects,
        List.nil_append]
    have he2 : renderEntry our_masks new_masks [] [c1, c2]
        (⟨[{ c1 with id := nid, poke_count := 0 }], hist ++ [nid], nid + 1⟩,
          writeMask merged (new_masks c1.id) nid) ((c2.id, true), new_sums c2.id) =
        (⟨[{ c1 with id := nid, poke_count := 0 }, { c2 with id := nid + 1, poke_count := 0 }],
            (hist ++ [nid]) ++ [nid + 1], nid + 2⟩,
          writeMask (writeMask merged (new_masks c1.id) nid) (new_masks c2.id) (nid + 1)) := by
      rw [renderEntry]
      simp only [eq_self_iff_true, if_true, hfc2, ObjectManager.add_new_objects,
        List.cons_append, List.nil_append]
    rw [renderAll, he1, renderAll, he2, renderAll]
  constructor
  · rw [hre]
    have hlen1 : (writeMask merged (new_masks c1.id) nid).length = merged.length := by
      rw [writeMask_length, hl1, Nat.min_self]
    have h2' := writeMask_getD (nid + 1) (new_masks c2.id)
      (writeMask merged (new_masks c1.id) nid) p (by rw [hlen1]; exact hp)
      (by rw [hlen1, hl2])
    rw [h2', hb2]
    simp
  · rw [hre]

end SegMerge

namespace SegMerge

/-- C1 counterexample: the exact scenario of the claim — empty registry,
two same-category candidates of areas 200 and 20 overlapping on 10
pixels.  The rendering loop walks areas in descending order, so the
area-200 segment is written first and the area-20 segment afterwards;
shared pixel 195 ends up with the identity (and the temp index) of the
area-20 candidate, not the area-200 one, refuting the claim that the
larger segment owns overlapping pixels. -/
theorem render_overlap_counterexample :
    maskSum (List.replicate 200 true ++ List.replicate 10 false) = 200 ∧
    maskSum (List.replicate 190 false ++ List.replicate 20 true) = 20 ∧
    maskInter (List.replicate 200 true ++ List.replicate 10 false)
      (List.replicate 190 false ++ List.replicate 20 true) = 10 ∧
    (merge_by_iou (fun _ => List.replicate 210 false)
        (fun nid => if nid = 1 then List.replicate 200 true ++ List.replicate 10 false
                    else List.replicate 190 false ++ List.replicate 20 true)
        (fun _ => 0) (fun nid => if nid = 1 then 200 else 20)
        (List.replicate 210 0) ⟨[], [], 1⟩
        [⟨1, some true, 1, 0⟩, ⟨2, some true, 1, 0⟩] (some true)).2.getD 195 0 = 2 ∧
    ((merge_by_iou (fun _ => List.replicate 210 false)
        (fun nid => if nid = 1 then List.replicate 200 true ++ List.replicate 10 false
                    else List.replicate 190 false ++ List.replicate 20 true)
        (fun _ => 0) (fun nid => if nid = 1 then 200 else 20)
        (List.replicate 210 0) ⟨[], [], 1⟩
        [⟨1, some true, 1, 0⟩, ⟨2, some true, 1, 0⟩] (some true)).1.objects.map
      ObjectInfo.id) = [1, 2] ∧
    ((merge_by_iou (fun _ => List.replicate 210 false)
        (fun nid => if nid = 1 then List.replicate 200 true ++ List.replicate 10 false
                    else List.replicate 190 false ++ List.replicate 20 true)
        (fun _ => 0) (fun nid => if nid = 1 then 200 else 20)
        (List.replicate 210 0) ⟨[], [], 1⟩
        [⟨1, some true, 1, 0⟩, ⟨2, some true, 1, 0⟩] (some true)).1.make_one_hot
      (merge_by_iou (fun _ => List.replicate 210 false)
        (fun nid => if nid = 1 then List.replicate 200 true ++ List.replicate 10 false
                    else List.replicate 190 false ++ List.replicate 20 true)
        (fun _ => 0) (fun nid => if nid = 1 then 200 else 20)
        (List.replicate 210 0) ⟨[], [], 1⟩
        [⟨1, some true, 1, 0⟩, ⟨2, some true, 1, 0⟩] (some true)).2).2.getD 195 0 = 2 := by
  set_option maxRecDepth 10000 in decide

theorem render_overlap_smaller_wins_witness :
    (merge_by_iou (fun _ => [false, false, false])
        (fun nid => if nid = 1 then [true, true, true] else [true, false, false])
        (fun _ => 0) (fun nid => if nid = 1 then 3 else 1)
        [0, 0, 0] ⟨[], [], 5⟩
        [⟨1, some true, 1, 0⟩, ⟨2, some true, 1, 0⟩] (some true)).2.getD 0 0 = 5 + 1 ∧
    (merge_by_iou (fun _ => [false, false, false])
        (fun nid => if nid = 1 then [true, true, true] else [true, false, false])
        (fun _ => 0) (fun nid => if nid = 1 then 3 else 1)
        [0, 0, 0] ⟨[], [], 5⟩
        [⟨1, some true, 1, 0⟩, ⟨2, some true, 1, 0⟩] (some true)).1.objects =
      [{ (⟨1, some true, 1, 0⟩ : ObjectInfo) with id := 5, poke_count := 0 },
        { (⟨2, some true, 1, 0⟩ : ObjectInfo) with id := 5 + 1, poke_count := 0 }] :=
  render_overlap_smaller_wins (fun _ => [false, false, false])
    (fun nid => if nid = 1 then [true, true, true] else [true, false, false])
    (fun _ => 0) (fun nid => if nid = 1 then 3 else 1) (some true)
    ⟨1, some true, 1, 0⟩ ⟨2, some true, 1, 0⟩ [] 5 [0, 0, 0] 0
    rfl rfl (by decide) (by decide) (by decide) (by decide) rfl rfl

end SegMerge

namespace SegMerge

/-! ### Unknown mode handling (C3) -/

theorem presentIds_all_zero :
    ∀ (l : LabelMask) (seen : List Nat), (∀ v ∈ l, v = 0) → presentIds l seen = [] := by
  intro l
  induction l with
  | nil => intro seen _; rfl
  | cons v rest ih =>
    intro seen h
    have hv : v = 0 := h v (List.mem_cons_self v rest)
    rw [presentIds, if_pos (Or.inl hv)]
    exact ih seen (fun v' h' => h v' (List.mem_cons_of_mem v h'))

theorem mergeStep_unknown (om_ nm_ : Nat → Mask) (os_ ns_ : Nat → Int)
    (cands : List ObjectInfo) (mode : String) (thr : ℚ)
    (h1 : mode ≠ "iou") (h2 : mode ≠ "engulf") :
    ∀ (l : List (Option Bool)) (acc : ObjectManager × LabelMask),
      l.foldl (mergeStep om_ nm_ os_ ns_ cands mode thr) acc = acc := by
  intro l
  induction l with
  | nil => intro acc; rfl
  | cons s rest ih =>
    intro acc
    rw [List.foldl_cons, mergeStep, if_neg h1, if_neg h2]
    exact ih acc

/-- C3 (amended): a mode string that lowercases to neither `iou` nor
`engulf` does not fail fast — no error exists in the code path.  The call
runs to completion, every merge pass is skipped, the returned mask is all
background, and the registry keeps its historical identities and its next
fresh identity (no object is created, merged, poked or unpoked; the
temp-index table is rebuilt from the empty mask and so comes back
empty). -/
theorem unknown_mode_is_noop (our_mask new_mask : LabelMask) (om : ObjectManager)
    (cands : List ObjectInfo) (mode : String) (mx : Int) (thr : ℚ)
    (h1 : strLower mode ≠ "iou") (h2 : strLower mode ≠ "engulf") :
    (match_and_merge our_mask new_mask om cands mode mx thr).mask =
      our_mask.map (fun _ => 0) ∧
    (match_and_merge our_mask new_mask om cands mode mx thr).object_manager.all_historical_object_ids =
      om.all_historical_object_ids ∧
    (match_and_merge our_mask new_mask om cands mode mx thr).object_manager.next_id =
      om.next_id ∧
    (match_and_merge our_mask new_mask om cands mode mx thr).object_manager.objects = [] := by
  have hz : ∀ v ∈ our_mask.map (fun _ => (0 : Nat)), v = 0 := by
    intro v hv
    obtain ⟨x, _, hx⟩ := List.mem_map.mp hv
    exact hx.symm
  have hids : presentIds (our_mask.map (fun _ => 0)) [] = [] :=
    presentIds_all_zero _ [] hz
  refine ⟨?_, ?_, ?_, ?_⟩
  all_goals
    simp only [match_and_merge, match_isthing, mergeStep_unknown _ _ _ _ _ _ _ h1 h2,
      ObjectManager.make_one_hot, hids]
  all_goals
    first
    | rfl
    | (rw [List.map_map]; rfl)

/-- C3 counterexample: with the unknown mode string `"foo"`, a nonempty
registry and a fully-overlapping candidate, `match_and_merge` returns
normally (mask all background, no warning, history intact) instead of
failing fast with a configuration error — no such error exists in the
code. -/
theorem unknown_mode_counterexample :
    match_and_merge [0, 1, 0] [7, 0, 7] ⟨[⟨3, some true, 1, 0⟩], [3], 4⟩
        [⟨7, some true, 1, 0⟩] "foo" (-1) (1/5) =
      ⟨⟨[], [3], 4⟩, [0, 0, 0], false⟩ := by
  decide

theorem unknown_mode_is_noop_witness :
    (match_and_merge [0, 1, 0] [7, 0, 7] ⟨[⟨3, some true, 1, 0⟩], [3], 4⟩
        [⟨7, some true, 1, 0⟩] "bar" (-1) (1/5)).mask = ([0, 1, 0] : LabelMask).map (fun _ => 0) ∧
    (match_and_merge [0, 1, 0] [7, 0, 7] ⟨[⟨3, some true, 1, 0⟩], [3], 4⟩
        [⟨7, some true, 1, 0⟩] "bar" (-1) (1/5)).object_manager.all_historical_object_ids = [3] ∧
    (match_and_merge [0, 1, 0] [7, 0, 7] ⟨[⟨3, some true, 1, 0⟩], [3], 4⟩
        [⟨7, some true, 1, 0⟩] "bar" (-1) (1/5)).object_manager.next_id = 4 ∧
    (match_and_merge [0, 1, 0] [7, 0, 7] ⟨[⟨3, some true, 1, 0⟩], [3], 4⟩
        [⟨7, some true, 1, 0⟩] "bar" (-1) (1/5)).object_manager.objects = [] :=
  unknown_mode_is_noop [0, 1, 0] [7, 0, 7] ⟨[⟨3, some true, 1, 0⟩], [3], 4⟩
    [⟨7, some true, 1, 0⟩] "bar" (-1) (1/5) (by decide) (by decide)

end SegMerge

namespace SegMerge

/-! ### Category isolation (C7) -/

/-- Homogeneity of the matching dictionary for category-type `s`: every
recorded pair links an existing object of type `s` to a candidate of
type `s`. -/
def MatchingOk (objs cands : List ObjectInfo) (s : Option Bool)
    (M : List (Nat × Nat)) : Prop :=
  ∀ pr ∈ M, (∃ o ∈ objs, o.id = pr.1 ∧ o.isthing = s) ∧
    (∃ c ∈ cands, c.id = pr.2 ∧ c.isthing = s)

theorem matchingOk_assocSet {objs cands : List ObjectInfo} {s : Option Bool}
    {M : List (Nat × Nat)} {o c : ObjectInfo}
    (hM : MatchingOk objs cands s M) (ho : o ∈ objs) (hos : o.isthing = s)
    (hc : c ∈ cands) (hcs : c.isthing = s) :
    MatchingOk objs cands s (assocSet o.id c.id M) := by
  intro pr hpr
  rcases mem_assocSet _ _ _ _ hpr with h | h
  · subst h
    exact ⟨⟨o, ho, rfl, hos⟩, ⟨c, hc, rfl, hcs⟩⟩
  · exact hM pr h

theorem iouScan_matching_ok (our_masks new_masks : Nat → Mask)
    (our_sums new_sums : Nat → Int) (s : Option Bool)
    (objs cands : List ObjectInfo) (c : ObjectInfo) (hc : c ∈ cands) (hcs : c.isthing = s) :
    ∀ (l : List ObjectInfo), (∀ o ∈ l, o ∈ objs) →
      ∀ st : MergeState, MatchingOk objs cands s st.our_to_new_matching →
      MatchingOk objs cands s
        (iouScan our_masks new_masks our_sums new_sums s c l st).our_to_new_matching := by
  intro l
  induction l with
  | nil =>
    intro _ st hst
    exact hst
  | cons o rest ih =>
    intro hsub st hst
    have hrest : ∀ o' ∈ rest, o' ∈ objs := fun o' h' => hsub o' (List.mem_cons_of_mem o h')
    simp only [iouScan]
    by_cases hskip : o.isthing ≠ s ∨ (alookup o.id st.our_to_new_matching).isSome = true
    · rw [if_pos hskip]
      exact ih hrest st hst
    · rw [if_neg hskip]
      rw [not_or] at hskip
      have hos : o.isthing = s := not_not.mp hskip.1
      by_cases hr : (get_iou (new_masks c.id) (our_masks o.id) (new_sums c.id)
          (our_sums o.id)).ratio > 1/2
      · rw [if_pos hr]
        exact matchingOk_assocSet hst (hsub o (List.mem_cons_self o rest)) hos hc hcs
      · rw [if_neg hr]
        exact ih hrest st hst

theorem engulfScan_matching_ok (our_masks new_masks : Nat → Mask)
    (our_sums new_sums : Nat → Int) (s : Option Bool) (thr : ℚ)
    (objs cands : List ObjectInfo) (c : ObjectInfo) (hc : c ∈ cands) (hcs : c.isthing = s) :
    ∀ (l : List ObjectInfo), (∀ o ∈ l, o ∈ objs) →
      ∀ st : MergeState, MatchingOk objs cands s st.our_to_new_matching →
      MatchingOk objs cands s
        (engulfScan our_masks new_masks our_sums new_sums s thr c l st).our_to_new_matching := by
  intro l
  induction l with
  | nil =>
    intro _ st hst
    exact hst
  | cons o rest ih =>
    intro hsub st hst
    have hrest : ∀ o' ∈ rest, o' ∈ objs := fun o' h' => hsub o' (List.mem_cons_of_mem o h')
    simp only [engulfScan]
    by_cases hs : o.isthing ≠ s
    · rw [if_pos hs]
      exact ih hrest st hst
    · rw [if_neg hs]
      have hos : o.isthing = s := not_not.mp hs
      by_cases hr : (get_iou (new_masks c.id) (our_masks o.id) (new_sums c.id)
          (our_sums o.id)).ratio > 1/2
      · rw [if_pos hr]
        exact matchingOk_assocSet hst (hsub o (List.mem_cons_self o rest)) hos hc hcs
      · rw [if_neg hr]
        by_cases hd : (get_iou (new_masks c.id) (our_masks o.id) (new_sums c.id)
            (our_sums o.id)).ratio > 0 ∧
            (((get_iou (new_masks c.id) (our_masks o.id) (new_sums c.id)
              (our_sums o.id)).intersection.getD 0 : ℚ) /
              ((new_sums c.id : Int) : ℚ)) > thr
        · rw [if_pos hd]
          exact hst
        · rw [if_neg hd]
          exact ih hrest st hst

theorem iouMatchCands_matching_ok (our_masks new_masks : Nat → Mask)
    (our_sums new_sums : Nat → Int) (s : Option Bool) (objs cands : List ObjectInfo) :
    ∀ (cl : List ObjectInfo), (∀ c ∈ cl, c ∈ cands) →
      ∀ st : MergeState, MatchingOk objs cands s st.our_to_new_matching →
      MatchingOk objs cands s
        (iouMatchCands our_masks new_masks our_sums new_sums s objs cl
          st).our_to_new_matching := by
  intro cl
  induction cl with
  | nil =>
    intro _ st hst
    exact hst
  | cons c rest ih =>
    intro hsub st hst
    have hrest : ∀ c' ∈ rest, c' ∈ cands := fun c' h' => hsub c' (List.mem_cons_of_mem c h')
    simp only [iouMatchCands]
    by_cases hcs : c.isthing ≠ s
    · rw [if_pos hcs]
      exact ih hrest st hst
    · rw [if_neg hcs]
      refine ih hrest _ ?_
      exact iouScan_matching_ok our_masks new_masks our_sums new_sums s objs cands c
        (hsub c (List.mem_cons_self c rest)) (not_not.mp hcs) objs (fun _ h => h) st hst

theorem engulfMatchCands_matching_ok (our_masks new_masks : Nat → Mask)
    (our_sums new_sums : Nat → Int) (s : Option Bool) (thr : ℚ)
    (objs cands : List ObjectInfo) :
    ∀ (cl : List ObjectInfo), (∀ c ∈ cl, c ∈ cands) →
      ∀ st : MergeState, MatchingOk objs cands s st.our_to_new_matching →
      MatchingOk objs cands s
        (engulfMatchCands our_masks new_masks our_sums new_sums s thr objs cl
          st).our_to_new_matching := by
  intro cl
  induction cl with
  | nil =>
    intro _ st hst
    exact hst
  | cons c rest ih =>
    intro hsub st hst
    have hrest : ∀ c' ∈ rest, c' ∈ cands := fun c' h' => hsub c' (List.mem_cons_of_mem c h')
    simp only [engulfMatchCands]
    by_cases hcs : c.isthing ≠ s
    · rw [if_pos hcs]
      exact ih hrest st hst
    · rw [if_neg hcs]
      refine ih hrest _ ?_
      exact engulfScan_matching_ok our_masks new_masks our_sums new_sums s thr objs cands c
        (hsub c (List.mem_cons_self c rest)) (not_not.mp hcs) objs (fun _ h => h) st hst

/-- C7: the merge orchestrator processes the category-type partitions in
the fixed order `[Unknown, Stuff, Thing]` (`match_isthing`), and matching
never crosses a partition: in either strategy, every pair of the matching
dictionary built for a pass of type `s` links an existing object whose
category-type is `s` to a candidate whose category-type is `s`, for any
input. -/
theorem category_isolation :
    match_isthing = [none, some false, some true] ∧
    (∀ (our_masks new_masks : Nat → Mask) (our_sums new_sums : Nat → Int)
      (s : Option Bool) (objs cands : List ObjectInfo) (pr : Nat × Nat),
      pr ∈ (addCarriedOver our_sums s objs
          (iouMatchCands our_masks new_masks our_sums new_sums s objs cands
            ⟨[], [], []⟩)).our_to_new_matching →
      (∃ o ∈ objs, o.id = pr.1 ∧ o.isthing = s) ∧
      (∃ c ∈ cands, c.id = pr.2 ∧ c.isthing = s)) ∧
    (∀ (our_masks new_masks : Nat → Mask) (our_sums new_sums : Nat → Int)
      (s : Option Bool) (thr : ℚ) (objs cands : List ObjectInfo) (pr : Nat × Nat),
      pr ∈ (addCarriedOver our_sums s objs
          (engulfMatchCands our_masks new_masks our_sums new_sums s thr objs cands
            ⟨[], [], []⟩)).our_to_new_matching →
      (∃ o ∈ objs, o.id = pr.1 ∧ o.isthing = s) ∧
      (∃ c ∈ cands, c.id = pr.2 ∧ c.isthing = s)) := by
  refine ⟨rfl, ?_, ?_⟩
  · intro our_masks new_masks our_sums new_sums s objs cands pr hpr
    rw [(addCarriedOver_matching our_sums s objs _).1] at hpr
    exact iouMatchCands_matching_ok our_masks new_masks our_sums new_sums s objs cands
      cands (fun _ h => h) ⟨[], [], []⟩ (fun pr' h' => absurd h' (List.not_mem_nil pr'))
      pr hpr
  · intro our_masks new_masks our_sums new_sums s thr objs cands pr hpr
    rw [(addCarriedOver_matching our_sums s objs _).1] at hpr
    exact engulfMatchCands_matching_ok our_masks new_masks our_sums new_sums s thr objs
      cands cands (fun _ h => h) ⟨[], [], []⟩
      (fun pr' h' => absurd h' (List.not_mem_nil pr')) pr hpr

end SegMerge

namespace SegMerge

theorem c7_ratio :
    (get_iou [true, true, false, false] [true, true, true, false] 2 3).ratio > 1/2 := by
  norm_num [get_iou, maskInter]

theorem c7_iou_matching :
    (addCarriedOver (fun _ => 3) (some true) [⟨10, some true, 1, 3⟩]
      (iouMatchCands (fun _ => [true, true, true, false]) (fun _ => [true, true, false, false])
        (fun _ => 3) (fun _ => 2) (some true) [⟨10, some true, 1, 3⟩]
        [⟨1, some true, 1, 0⟩] ⟨[], [], []⟩)).our_to_new_matching = [(10, 1)] := by
  have hscan : iouScan (fun _ => [true, true, true, false])
      (fun _ => [true, true, false, false]) (fun _ => 3) (fun _ => 2) (some true)
      ⟨1, some true, 1, 0⟩ [⟨10, some true, 1, 3⟩] ⟨[], [], []⟩ =
      ⟨[(10, 1)],
        [((10, false),
          (get_iou [true, true, false, false] [true, true, true, false] 2 3).union.getD 0)],
        []⟩ := by
    simp only [iouScan]
    rw [if_neg (by simp [alookup]), if_pos c7_ratio]
    rfl
  rw [iouMatchCands, if_neg (by simp), iouMatchCands, hscan, addCarriedOver,
    if_pos (Or.inr (by simp [alookup])), addCarriedOver]

theorem c7_engulf_matching :
    (addCarriedOver (fun _ => 3) (some true) [⟨10, some true, 1, 3⟩]
      (engulfMatchCands (fun _ => [true, true, true, false])
        (fun _ => [true, true, false, false])
        (fun _ => 3) (fun _ => 2) (some true) (1/5) [⟨10, some true, 1, 3⟩]
        [⟨1, some true, 1, 0⟩] ⟨[], [], []⟩)).our_to_new_matching = [(10, 1)] := by
  have hscan : engulfScan (fun _ => [true, true, true, false])
      (fun _ => [true, true, false, false]) (fun _ => 3) (fun _ => 2) (some true) (1/5)
      ⟨1, some true, 1, 0⟩ [⟨10, some true, 1, 3⟩] ⟨[], [], []⟩ =
      ⟨[(10, 1)],
        [((10, false),
          (get_iou [true, true, false, false] [true, true, true, false] 2 3).union.getD 0)],
        []⟩ := by
    simp only [engulfScan]
    rw [if_neg (by simp), if_pos c7_ratio]
    rfl
  rw [engulfMatchCands, if_neg (by simp), engulfMatchCands, hscan, addCarriedOver,
    if_pos (Or.inr (by simp [alookup])), addCarriedOver]

theorem category_isolation_witness :
    ((∃ o ∈ [(⟨10, some true, 1, 3⟩ : ObjectInfo)], o.id = (10, 1).1 ∧
        o.isthing = some true) ∧
      (∃ c ∈ [(⟨1, some true, 1, 0⟩ : ObjectInfo)], c.id = (10, 1).2 ∧
        c.isthing = some true)) ∧
    ((∃ o ∈ [(⟨10, some true, 1, 3⟩ : ObjectInfo)], o.id = (10, 1).1 ∧
        o.isthing = some true) ∧
      (∃ c ∈ [(⟨1, some true, 1, 0⟩ : ObjectInfo)], c.id = (10, 1).2 ∧
        c.isthing = some true)) :=
  ⟨category_isolation.2.1 (fun _ => [true, true, true, false])
      (fun _ => [true, true, false, false]) (fun _ => 3) (fun _ => 2) (some true)
      [⟨10, some true, 1, 3⟩] [⟨1, some true, 1, 0⟩] (10, 1)
      (by rw [c7_iou_matching]; exact List.mem_singleton.mpr rfl),
    category_isolation.2.2 (fun _ => [true, true, true, false])
      (fun _ => [true, true, false, false]) (fun _ => 3) (fun _ => 2) (some true) (1/5)
      [⟨10, some true, 1, 3⟩] [⟨1, some true, 1, 0⟩] (10, 1)
      (by rw [c7_engulf_matching]; exact List.mem_singleton.mpr rfl)⟩

end SegMerge

namespace SegMerge

/-! ### Population-cap enforcement (C2) -/

theorem update_obj_proj (om : ObjectManager) (oid : Nat) (f : ObjectInfo → ObjectInfo)
    (hid : ∀ o, (f o).id = o.id) (hith : ∀ o, (f o).isthing = o.isthing) :
    (om.update_obj oid f).objects.map ObjectInfo.id = om.objects.map ObjectInfo.id ∧
    (om.update_obj oid f).objects.map ObjectInfo.isthing =
      om.objects.map ObjectInfo.isthing := by
  constructor
  · rw [ObjectManager.update_obj]
    show (om.objects.map _).map _ = _
    rw [List.map_map]
    refine List.map_congr_left ?_
    intro o _
    by_cases h : o.id = oid
    · simp [h, hid]
    · simp [h]
  · rw [ObjectManager.update_obj]
    show (om.objects.map _).map _ = _
    rw [List.map_map]
    refine List.map_congr_left ?_
    intro o _
    by_cases h : o.id = oid
    · simp [h, hith]
    · simp [h]

theorem carriedFold_manager (our_masks : Nat → Mask) :
    ∀ (entries : List ((Nat × Bool) × Int)) (acc : ObjectManager × LabelMask),
      (entries.foldl
        (fun a e => (a.1.poke e.1.1, writeMask a.2 (our_masks e.1.1) e.1.1))
        acc).1.all_historical_object_ids = acc.1.all_historical_object_ids ∧
      (entries.foldl
        (fun a e => (a.1.poke e.1.1, writeMask a.2 (our_masks e.1.1) e.1.1))
        acc).1.next_id = acc.1.next_id ∧
      (entries.foldl
        (fun a e => (a.1.poke e.1.1, writeMask a.2 (our_masks e.1.1) e.1.1))
        acc).1.objects.map ObjectInfo.id = acc.1.objects.map ObjectInfo.id ∧
      (entries.foldl
        (fun a e => (a.1.poke e.1.1, writeMask a.2 (our_masks e.1.1) e.1.1))
        acc).1.objects.map ObjectInfo.isthing = acc.1.objects.map ObjectInfo.isthing := by
  intro entries
  induction entries with
  | nil => intro acc; exact ⟨rfl, rfl, rfl, rfl⟩
  | cons e es ih =>
    intro acc
    rw [List.foldl_cons]
    have h := ih (acc.1.poke e.1.1, writeMask acc.2 (our_masks e.1.1) e.1.1)
    have hproj := update_obj_proj acc.1 e.1.1
      (fun o => { o with poke_count := o.poke_count + 1 }) (fun _ => rfl) (fun _ => rfl)
    exact ⟨h.1, h.2.1, h.2.2.1.trans hproj.1, h.2.2.2.trans hproj.2⟩

theorem merge_pass_empty_cands (our_masks new_masks : Nat → Mask)
    (our_sums new_sums : Nat → Int) (merged : LabelMask) (om : ObjectManager)
    (s : Option Bool) (thr : ℚ) (pass : ObjectManager × LabelMask)
    (hpass : pass = merge_by_iou our_masks new_masks our_sums new_sums merged om [] s ∨
      pass = merge_by_engulf our_masks new_masks our_sums new_sums merged om [] s thr) :
    pass.1.all_historical_object_ids = om.all_historical_object_ids ∧
    pass.1.next_id = om.next_id ∧
    pass.1.objects.map ObjectInfo.id = om.objects.map ObjectInfo.id ∧
    pass.1.objects.map ObjectInfo.isthing = om.objects.map ObjectInfo.isthing := by
  have hm : (addCarriedOver our_sums s om.objects ⟨[], [], []⟩).our_to_new_matching = [] :=
    (addCarriedOver_matching our_sums s om.objects ⟨[], [], []⟩).1
  have hfalse : ∀ e ∈ sortDesc (addCarriedOver our_sums s om.objects
      ⟨[], [], []⟩).matched_area, e.1.2 = false := by
    intro e he
    exact addCarriedOver_false_keys our_sums s om.objects ⟨[], [], []⟩
      (by intro e h; cases h) e (mem_sortDesc.mp he)
  have hiou : merge_by_iou our_masks new_masks our_sums new_sums merged om [] s =
      (sortDesc (addCarriedOver our_sums s om.objects ⟨[], [], []⟩).matched_area).foldl
        (fun a e => (a.1.poke e.1.1, writeMask a.2 (our_masks e.1.1) e.1.1))
        (om, merged) := by
    show renderAll our_masks new_masks
        (addCarriedOver our_sums s om.objects ⟨[], [], []⟩).our_to_new_matching []
        (sortDesc (addCarriedOver our_sums s om.objects ⟨[], [], []⟩).matched_area)
        (om, merged) = _
    rw [hm, renderAll_carried _ _ _ _ _ hfalse]
  have hpass' : pass = (sortDesc (addCarriedOver our_sums s om.objects
      ⟨[], [], []⟩).matched_area).foldl
        (fun a e => (a.1.poke e.1.1, writeMask a.2 (our_masks e.1.1) e.1.1))
        (om, merged) := by
    rcases hpass with h | h
    · rw [h, hiou]
    · rw [h]
      show renderAll our_masks new_masks
          (addCarriedOver our_sums s om.objects ⟨[], [], []⟩).our_to_new_matching []
          (sortDesc (addCarriedOver our_sums s om.objects ⟨[], [], []⟩).matched_area)
          (om, merged) = _
      rw [hm, renderAll_carried _ _ _ _ _ hfalse]
  rw [hpass']
  exact carriedFold_manager our_masks _ (om, merged)

theorem fold_passes_empty_cands (our_masks new_masks : Nat → Mask)
    (our_sums new_sums : Nat → Int) (mode : String) (thr : ℚ) :
    ∀ (l : List (Option Bool)) (acc : ObjectManager × LabelMask),
      (l.foldl (mergeStep our_masks new_masks our_sums new_sums [] mode thr)
        acc).1.all_historical_object_ids = acc.1.all_historical_object_ids ∧
      (l.foldl (mergeStep our_masks new_masks our_sums new_sums [] mode thr)
        acc).1.next_id = acc.1.next_id ∧
      (l.foldl (mergeStep our_masks new_masks our_sums new_sums [] mode thr)
        acc).1.objects.map ObjectInfo.id = acc.1.objects.map ObjectInfo.id ∧
      (l.foldl (mergeStep our_masks new_masks our_sums new_sums [] mode thr)
        acc).1.objects.map ObjectInfo.isthing = acc.1.objects.map ObjectInfo.isthing := by
  intro l
  induction l with
  | nil => intro acc; exact ⟨rfl, rfl, rfl, rfl⟩
  | cons s rest ih =>
    intro acc
    rw [List.foldl_cons]
    have hstep : mergeStep our_masks new_masks our_sums new_sums [] mode thr acc s =
        mergeStep our_masks new_masks our_sums new_sums [] mode thr acc s := rfl
    have h := ih (mergeStep our_masks new_masks our_sums new_sums [] mode thr acc s)
    have hone : (mergeStep our_masks new_masks our_sums new_sums [] mode thr
        acc s).1.all_historical_object_ids = acc.1.all_historical_object_ids ∧
        (mergeStep our_masks new_masks our_sums new_sums [] mode thr
          acc s).1.next_id = acc.1.next_id ∧
        (mergeStep our_masks new_masks our_sums new_sums [] mode thr
          acc s).1.objects.map ObjectInfo.id = acc.1.objects.map ObjectInfo.id ∧
        (mergeStep our_masks new_masks our_sums new_sums [] mode thr
          acc s).1.objects.map ObjectInfo.isthing =
          acc.1.objects.map ObjectInfo.isthing := by
      rw [mergeStep]
      by_cases h1 : mode = "iou"
      · rw [if_pos h1]
        exact merge_pass_empty_cands our_masks new_masks our_sums new_sums acc.2 acc.1 s
          thr _ (Or.inl rfl)
      · rw [if_neg h1]
        by_cases h2 : mode = "engulf"
        · rw [if_pos h2]
          exact merge_pass_empty_cands our_masks new_masks our_sums new_sums acc.2 acc.1 s
            thr _ (Or.inr rfl)
        · rw [if_neg h2]
          exact ⟨rfl, rfl, rfl, rfl⟩
    exact ⟨h.1.trans hone.1, h.2.1.trans hone.2.1, h.2.2.1.trans hone.2.2.1,
      h.2.2.2.trans hone.2.2.2⟩

theorem make_one_hot_objects_sub (om : ObjectManager) (mask : LabelMask) :
    ∀ o' ∈ (om.make_one_hot mask).1.objects, o' ∈ om.objects := by
  intro o' h
  simp only [ObjectManager.make_one_hot] at h
  obtain ⟨i, _, hfind⟩ := List.mem_filterMap.mp h
  exact List.mem_of_find?_eq_some hfind

end SegMerge

namespace SegMerge

theorem make_one_hot_hist (om : ObjectManager) (mask : LabelMask) :
    (om.make_one_hot mask).1.all_historical_object_ids = om.all_historical_object_ids := rfl

theorem make_one_hot_next (om : ObjectManager) (mask : LabelMask) :
    (om.make_one_hot mask).1.next_id = om.next_id := rfl

/-- C2: if `max_objects > 0` and the historical identity count plus the
candidate count exceeds it, the whole frame's candidates are discarded:
the warning flag is set, the historical identity set and the next fresh
identity are exactly as before the call (the registry is not mutated
before the cap check and no identity is ever created), and every object
visible in the output belongs to the pre-existing registry — no pixel of
the output is owned by any of the frame's candidates. -/
theorem cap_enforcement (our_mask new_mask : LabelMask) (om : ObjectManager)
    (cands : List ObjectInfo) (mode : String) (mx : Int) (thr : ℚ)
    (hpos : mx > 0)
    (hover : (om.all_historical_object_ids.length : Int) + (cands.length : Int) > mx) :
    (match_and_merge our_mask new_mask om cands mode mx thr).warned = true ∧
    (match_and_merge our_mask new_mask om cands mode mx
      thr).object_manager.all_historical_object_ids = om.all_historical_object_ids ∧
    (match_and_merge our_mask new_mask om cands mode mx thr).object_manager.next_id =
      om.next_id ∧
    (∀ o' ∈ (match_and_merge our_mask new_mask om cands mode mx
        thr).object_manager.objects, o'.id ∈ om.objects.map ObjectInfo.id) := by
  have hexc : (decide (mx > 0) &&
      decide ((om.all_historical_object_ids.length : Int) + (cands.length : Int) > mx))
      = true := by
    rw [Bool.and_eq_true]
    exact ⟨decide_eq_true hpos, decide_eq_true hover⟩
  refine ⟨?_, ?_, ?_, ?_⟩
  · simp only [match_and_merge, hexc]
  · simp only [match_and_merge, hexc, eq_self_iff_true, if_true, match_isthing,
      make_one_hot_hist]
    exact (fold_passes_empty_cands _ _ _ _ _ _ _ _).1
  · simp only [match_and_merge, hexc, eq_self_iff_true, if_true, match_isthing,
      make_one_hot_next]
    exact (fold_passes_empty_cands _ _ _ _ _ _ _ _).2.1
  · simp only [match_and_merge, hexc, eq_self_iff_true, if_true, match_isthing]
    intro o' ho'
    have h1 := make_one_hot_objects_sub _ _ o' ho'
    have h2 : o'.id ∈ (([none, some false, some true].foldl
        (mergeStep (fun oid => our_mask.map (fun v => v == om.tmp_id_of oid))
          (fun _ => new_mask.map (fun _ => false))
          (fun oid => (maskSum (our_mask.map (fun v => v == om.tmp_id_of oid)) : Int))
          (fun nid => (maskSum (new_mask.map (fun _ => false)) : Int)) [] (strLower mode)
          thr) (om, our_mask.map (fun _ => 0))).1.objects.map ObjectInfo.id) :=
      List.mem_map_of_mem ObjectInfo.id h1
    rw [(fold_passes_empty_cands _ _ _ _ _ _ _ _).2.2.1] at h2
    exact h2

theorem cap_enforcement_witness :
    (match_and_merge [0, 1] [7, 7] ⟨[⟨3, some true, 1, 0⟩], [3], 4⟩
        [⟨7, some true, 1, 0⟩] "iou" 1 (1/5)).warned = true ∧
    (match_and_merge [0, 1] [7, 7] ⟨[⟨3, some true, 1, 0⟩], [3], 4⟩
        [⟨7, some true, 1, 0⟩] "iou" 1
        (1/5)).object_manager.all_historical_object_ids = [3] ∧
    (match_and_merge [0, 1] [7, 7] ⟨[⟨3, some true, 1, 0⟩], [3], 4⟩
        [⟨7, some true, 1, 0⟩] "iou" 1 (1/5)).object_manager.next_id = 4 ∧
    (∀ o' ∈ (match_and_merge [0, 1] [7, 7] ⟨[⟨3, some true, 1, 0⟩], [3], 4⟩
        [⟨7, some true, 1, 0⟩] "iou" 1 (1/5)).object_manager.objects,
      o'.id ∈ ([⟨3, some true, 1, 0⟩] : List ObjectInfo).map ObjectInfo.id) :=
  cap_enforcement [0, 1] [7, 7] ⟨[⟨3, some true, 1, 0⟩], [3], 4⟩
    [⟨7, some true, 1, 0⟩] "iou" 1 (1/5) (by decide) (by decide)

end SegMerge

namespace SegMerge

/-! ### Utilities for the empty-candidate carry-over analysis (C6) -/

theorem alookup_assocSet {α β : Type} [DecidableEq α] (k k' : α) (v : β) :
    ∀ l : List (α × β),
      alookup k' (assocSet k v l) = if k' = k then some v else alookup k' l := by
  intro l
  induction l with
  | nil =>
    by_cases h : k' = k
    · rw [if_pos h]
      show (if k = k' then some v else alookup k' []) = some v
      rw [if_pos h.symm]
    · rw [if_neg h]
      show (if k = k' then some v else alookup k' []) = alookup k' []
      rw [if_neg (fun hc => h hc.symm)]
  | cons x xs ih =>
    obtain ⟨a, b⟩ := x
    by_cases ha : a = k
    · rw [assocSet, if_pos ha]
      by_cases hq : k' = k
      · rw [if_pos hq, alookup, if_pos hq.symm]
      · rw [if_neg hq, alookup, alookup,
          if_neg (fun hc : k = k' => hq hc.symm),
          if_neg (fun hc : a = k' => hq (hc.symm.trans ha))]
    · rw [assocSet, if_neg ha, alookup, alookup, ih]
      by_cases hq : a = k'
      · rw [if_pos hq, if_pos hq, if_neg (fun hc : k' = k => ha (hq.trans hc))]
      · rw [if_neg hq, if_neg hq]

theorem key_mem_assocSet {α β : Type} [DecidableEq α] (k : α) (v : β) :
    ∀ l : List (α × β), k ∈ (assocSet k v l).map Prod.fst := by
  intro l
  induction l with
  | nil => simp [assocSet]
  | cons x xs ih =>
    obtain ⟨a, b⟩ := x
    rw [assocSet]
    by_cases h : a = k
    · rw [if_pos h]; simp
    · rw [if_neg h]
      simpa using Or.inr ih

theorem keys_sub_assocSet {α β : Type} [DecidableEq α] (k k' : α) (v : β) :
    ∀ l : List (α × β), k' ∈ l.map Prod.fst → k' ∈ (assocSet k v l).map Prod.fst := by
  intro l
  induction l with
  | nil => intro h; cases h
  | cons x xs ih =>
    obtain ⟨a, b⟩ := x
    intro h
    rw [List.map_cons] at h
    rw [assocSet]
    by_cases hx : a = k
    · rw [if_pos hx, List.map_cons]
      rcases List.mem_cons.mp h with h' | h'
      · exact List.mem_cons.mpr (Or.inl (h'.trans hx))
      · exact List.mem_cons.mpr (Or.inr h')
    · rw [if_neg hx, List.map_cons]
      rcases List.mem_cons.mp h with h' | h'
      · exact List.mem_cons.mpr (Or.inl h')
      · exact List.mem_cons.mpr (Or.inr (ih h'))

theorem assocSet_keys_nodup {α β : Type} [DecidableEq α] (k : α) (v : β) :
    ∀ l : List (α × β), (l.map Prod.fst).Nodup → ((assocSet k v l).map Prod.fst).Nodup := by
  intro l
  induction l with
  | nil => intro _; simp [assocSet]
  | cons x xs ih =>
    obtain ⟨a, b⟩ := x
    intro h
    rw [List.map_cons, List.nodup_cons] at h
    rw [assocSet]
    by_cases hx : a = k
    · rw [if_pos hx, List.map_cons, List.nodup_cons]
      refine ⟨?_, h.2⟩
      intro hc
      exact h.1 (hx ▸ hc)
    · rw [if_neg hx, List.map_cons, List.nodup_cons]
      constructor
      · intro hc
        rcases List.mem_map.mp hc with ⟨e, he, hek⟩
        rcases mem_assocSet _ _ _ _ he with h' | h'
        · exact hx (hek.symm.trans (congrArg Prod.fst h'))
        · apply h.1
          rw [← hek]
          exact List.mem_map_of_mem Prod.fst h'
      · exact ih h.2

theorem eq_of_mem_keys_nodup {l : List ((Nat × Bool) × Int)}
    (h : (l.map Prod.fst).Nodup) {e e' : (Nat × Bool) × Int}
    (he : e ∈ l) (he' : e' ∈ l) (hk : e.1 = e'.1) : e = e' := by
  induction l with
  | nil => cases he
  | cons x xs ih =>
    rw [List.map_cons, List.nodup_cons] at h
    rcases List.mem_cons.mp he with h1 | h1 <;> rcases List.mem_cons.mp he' with h2 | h2
    · rw [h1, h2]
    · exfalso
      apply h.1
      rw [h1] at hk
      rw [hk]
      exact List.mem_map_of_mem Prod.fst h2
    · exfalso
      apply h.1
      rw [h2] at hk
      rw [← hk]
      exact List.mem_map_of_mem Prod.fst h1
    · exact ih h.2 h1 h2

theorem eq_of_id_mem_nodup {l : List ObjectInfo} (h : (l.map ObjectInfo.id).Nodup)
    {o o' : ObjectInfo} (ho : o ∈ l) (ho' : o' ∈ l) (hid : o.id = o'.id) : o = o' := by
  induction l with
  | nil => cases ho
  | cons x xs ih =>
    rw [List.map_cons, List.nodup_cons] at h
    rcases List.mem_cons.mp ho with h1 | h1 <;> rcases List.mem_cons.mp ho' with h2 | h2
    · rw [h1, h2]
    · exfalso
      apply h.1
      rw [h1] at hid
      rw [hid]
      exact List.mem_map_of_mem ObjectInfo.id h2
    · exfalso
      apply h.1
      rw [h2] at hid
      rw [← hid]
      exact List.mem_map_of_mem ObjectInfo.id h1
    · exact ih h.2 h1 h2

theorem mem_presentIds :
    ∀ (l : LabelMask) (seen : List Nat) (v : Nat),
      v ∈ l → v ≠ 0 → v ∉ seen → v ∈ presentIds l seen := by
  intro l
  induction l with
  | nil => intro seen v hv; cases hv
  | cons u rest ih =>
    intro seen v hv hnz hseen
    rw [presentIds]
    rcases List.mem_cons.mp hv with h | h
    · subst h
      rw [if_neg (by push_neg; exact ⟨hnz, hseen⟩)]
      exact List.mem_cons_self _ _
    · by_cases hu : u = 0 ∨ u ∈ seen
      · rw [if_pos hu]
        exact ih seen v h hnz hseen
      · rw [if_neg hu]
        by_cases huv : v = u
        · subst huv
          exact List.mem_cons_self _ _
        · refine List.mem_cons_of_mem _ (ih (u :: seen) v h hnz ?_)
          intro hc
          rcases List.mem_cons.mp hc with h' | h'
          · exact huv h'
          · exact hseen h'

theorem map_pair_of_maps :
    ∀ {l1 l2 : List ObjectInfo},
      l1.map ObjectInfo.id = l2.map ObjectInfo.id →
      l1.map ObjectInfo.isthing = l2.map ObjectInfo.isthing →
      l1.map (fun o => (o.id, o.isthing)) = l2.map (fun o => (o.id, o.isthing)) := by
  intro l1
  induction l1 with
  | nil =>
    intro l2 h1 _
    cases l2 with
    | nil => rfl
    | cons x xs => exact absurd h1 (by simp)
  | cons x xs ih =>
    intro l2 h1 h2
    cases l2 with
    | nil => exact absurd h1 (by simp)
    | cons y ys =>
      simp only [List.map_cons, List.cons.injEq] at h1 h2 ⊢
      exact ⟨by rw [h1.1, h2.1], ih h1.2 h2.2⟩

end SegMerge

namespace SegMerge

/-- Identity painted for temp value `v` of the incoming mask: the id of
the object at position `v - 1` of the registry order (`0` for
background). -/
def idOfTmp (om : ObjectManager) (v : Nat) : Nat :=
  if h : v ≠ 0 ∧ v - 1 < om.objects.length then (om.objects[v-1]).id else 0

theorem idOfTmp_zero (om : ObjectManager) : idOfTmp om 0 = 0 := by
  rw [idOfTmp, dif_neg]
  simp

theorem idOfTmp_pos (om : ObjectManager) (i : Nat) (hi : i < om.objects.length) :
    idOfTmp om (i + 1) = (om.objects[i]).id := by
  rw [idOfTmp, dif_pos ⟨Nat.succ_ne_zero i, by simpa using hi⟩]
  simp only [Nat.add_sub_cancel]

theorem tmp_id_of_getElem (om : ObjectManager)
    (hnodup : (om.objects.map ObjectInfo.id).Nodup) (i : Nat)
    (hi : i < om.objects.length) :
    om.tmp_id_of ((om.objects[i]).id) = i + 1 := by
  rw [ObjectManager.tmp_id_of]
  have hfind : om.objects.findIdx? (fun o => o.id == (om.objects[i]).id) = some i := by
    rw [List.findIdx?_eq_some_iff_getElem]
    refine ⟨hi, by simp, ?_⟩
    intro j hji
    simp only [Bool.not_eq_true, beq_eq_false_iff_ne, ne_eq]
    intro hc
    have hj : j < om.objects.length := Nat.lt_trans hji hi
    have hjm : j < (om.objects.map ObjectInfo.id).length := by simpa using hj
    have him : i < (om.objects.map ObjectInfo.id).length := by simpa using hi
    have h1 : (om.objects.map ObjectInfo.id)[j] =
        (om.objects.map ObjectInfo.id)[i] := by
      simpa using hc
    have := (List.Nodup.getElem_inj_iff hnodup).mp h1
    omega
  rw [hfind]

theorem tmp_id_of_eq (om : ObjectManager) (x t : Nat)
    (h : om.tmp_id_of x = t) (ht : t ≠ 0) :
    ∃ hj : t - 1 < om.objects.length, (om.objects[t-1]).id = x := by
  rw [ObjectManager.tmp_id_of] at h
  cases hfi : om.objects.findIdx? (fun o => o.id == x) with
  | none =>
    rw [hfi] at h
    exact absurd h.symm ht
  | some j =>
    rw [hfi] at h
    have h' : j + 1 = t := h
    obtain ⟨hj, hpj, _⟩ := List.findIdx?_eq_some_iff_getElem.mp hfi
    have hjt : t - 1 = j := by omega
    subst hjt
    exact ⟨hj, by simpa using hpj⟩

theorem tmp_id_of_mem_pos (om : ObjectManager) (x : Nat)
    (hx : x ∈ om.objects.map ObjectInfo.id) : om.tmp_id_of x ≠ 0 := by
  rw [ObjectManager.tmp_id_of]
  obtain ⟨o, ho, hid⟩ := List.mem_map.mp hx
  have hsome : (om.objects.findIdx? (fun o' => o'.id == x)).isSome = true := by
    rw [List.findIdx?_isSome]
    exact List.any_eq_true.mpr ⟨o, ho, by simp [hid]⟩
  cases hfi : om.objects.findIdx? (fun o' => o'.id == x) with
  | none => rw [hfi] at hsome; cases hsome
  | some j => simp

theorem presentIds_map (g : Nat → Nat) :
    ∀ (l : LabelMask) (seen : List Nat),
      (∀ v, (v ∈ l ∨ v ∈ seen) → (g v = 0 ↔ v = 0)) →
      (∀ v u, (v ∈ l ∨ v ∈ seen) → (u ∈ l ∨ u ∈ seen) → g v = g u → v = u) →
      presentIds (l.map g) (seen.map g) = (presentIds l seen).map g := by
  intro l
  induction l with
  | nil => intro seen _ _; rfl
  | cons v rest ih =>
    intro seen hzero hinj
    have hzero' : ∀ u, (u ∈ rest ∨ u ∈ seen) → (g u = 0 ↔ u = 0) := by
      intro u hu
      refine hzero u ?_
      rcases hu with h | h
      · exact Or.inl (List.mem_cons_of_mem v h)
      · exact Or.inr h
    have hinj' : ∀ u w, (u ∈ rest ∨ u ∈ seen) → (w ∈ rest ∨ w ∈ seen) → g u = g w → u = w := by
      intro u w hu hw
      refine hinj u w ?_ ?_
      · rcases hu with h | h
        · exact Or.inl (List.mem_cons_of_mem v h)
        · exact Or.inr h
      · rcases hw with h | h
        · exact Or.inl (List.mem_cons_of_mem v h)
        · exact Or.inr h
    rw [List.map_cons, presentIds, presentIds]
    by_cases hv : v = 0 ∨ v ∈ seen
    · rw [if_pos hv]
      have hgv : g v = 0 ∨ g v ∈ seen.map g := by
        rcases hv with h | h
        · exact Or.inl ((hzero v (Or.inl (List.mem_cons_self v rest))).mpr h)
        · exact Or.inr (List.mem_map_of_mem g h)
      rw [if_pos hgv]
      exact ih seen hzero' hinj'
    · push_neg at hv
      have hgv : ¬(g v = 0 ∨ g v ∈ seen.map g) := by
        push_neg
        constructor
        · intro hc
          exact hv.1 ((hzero v (Or.inl (List.mem_cons_self v rest))).mp hc)
        · intro hc
          rcases List.mem_map.mp hc with ⟨u, hu, hgu⟩
          have : u = v := hinj u v (Or.inr hu) (Or.inl (List.mem_cons_self v rest)) hgu
          exact hv.2 (this ▸ hu)
      rw [if_neg hgv, if_neg (by push_neg; exact hv), List.map_cons]
      congr 1
      have hmap : (v :: seen).map g = g v :: seen.map g := rfl
      rw [← hmap]
      refine ih (v :: seen) ?_ ?_
      · intro u hu
        refine hzero u ?_
        rcases hu with h | h
        · exact Or.inl (List.mem_cons_of_mem v h)
        · rcases List.mem_cons.mp h with h' | h'
          · exact Or.inl (h' ▸ List.mem_cons_self v rest)
          · exact Or.inr h'
      · intro u w hu hw
        refine hinj u w ?_ ?_
        · rcases hu with h | h
          · exact Or.inl (List.mem_cons_of_mem v h)
          · rcases List.mem_cons.mp h with h' | h'
            · exact Or.inl (h' ▸ List.mem_cons_self v rest)
            · exact Or.inr h'
        · rcases hw with h | h
          · exact Or.inl (List.mem_cons_of_mem v h)
          · rcases List.mem_cons.mp h with h' | h'
            · exact Or.inl (h' ▸ List.mem_cons_self v rest)
            · exact Or.inr h'

end SegMerge

namespace SegMerge

theorem carriedFold_mask_length (our_masks : Nat → Mask) :
    ∀ (entries : List ((Nat × Bool) × Int)) (acc : ObjectManager × LabelMask),
      (∀ e ∈ entries, (our_masks e.1.1).length = acc.2.length) →
      (entries.foldl
        (fun a e => (a.1.poke e.1.1, writeMask a.2 (our_masks e.1.1) e.1.1))
        acc).2.length = acc.2.length := by
  intro entries
  induction entries with
  | nil => intro acc _; rfl
  | cons e es ih =>
    intro acc hlen
    rw [List.foldl_cons]
    have hl : (writeMask acc.2 (our_masks e.1.1) e.1.1).length = acc.2.length := by
      rw [writeMask_length, hlen e (List.mem_cons_self e es), Nat.min_self]
    have := ih (acc.1.poke e.1.1, writeMask acc.2 (our_masks e.1.1) e.1.1)
      (by intro e' he'
          show (our_masks e'.1.1).length = (writeMask acc.2 (our_masks e.1.1) e.1.1).length
          rw [hl]
          exact hlen e' (List.mem_cons_of_mem e he'))
    rw [this]
    exact hl

theorem carriedFold_mask_keep (our_masks : Nat → Mask) (p : Nat) :
    ∀ (entries : List ((Nat × Bool) × Int)) (acc : ObjectManager × LabelMask),
      p < acc.2.length →
      (∀ e ∈ entries, (our_masks e.1.1).length = acc.2.length) →
      (∀ e ∈ entries, (our_masks e.1.1).getD p false = false) →
      (entries.foldl
        (fun a e => (a.1.poke e.1.1, writeMask a.2 (our_masks e.1.1) e.1.1))
        acc).2.getD p 0 = acc.2.getD p 0 := by
  intro entries
  induction entries with
  | nil => intro acc _ _ _; rfl
  | cons e es ih =>
    intro acc hp hlen hbit
    rw [List.foldl_cons]
    have hl : (writeMask acc.2 (our_masks e.1.1) e.1.1).length = acc.2.length := by
      rw [writeMask_length, hlen e (List.mem_cons_self e es), Nat.min_self]
    have hstep := ih (acc.1.poke e.1.1, writeMask acc.2 (our_masks e.1.1) e.1.1)
      (by show p < (writeMask acc.2 (our_masks e.1.1) e.1.1).length; rw [hl]; exact hp)
      (by intro e' he'
          show (our_masks e'.1.1).length = (writeMask acc.2 (our_masks e.1.1) e.1.1).length
          rw [hl]
          exact hlen e' (List.mem_cons_of_mem e he'))
      (fun e' he' => hbit e' (List.mem_cons_of_mem e he'))
    rw [hstep]
    show (writeMask acc.2 (our_masks e.1.1) e.1.1).getD p 0 = acc.2.getD p 0
    rw [writeMask_getD _ _ _ _ hp (hlen e (List.mem_cons_self e es)),
      hbit e (List.mem_cons_self e es)]
    simp

theorem carriedFold_mask_write (our_masks : Nat → Mask) (p : Nat) :
    ∀ (entries : List ((Nat × Bool) × Int)) (acc : ObjectManager × LabelMask)
      (e0 : (Nat × Bool) × Int), entries.Nodup → e0 ∈ entries →
      p < acc.2.length →
      (∀ e ∈ entries, (our_masks e.1.1).length = acc.2.length) →
      (our_masks e0.1.1).getD p false = true →
      (∀ e ∈ entries, e ≠ e0 → (our_masks e.1.1).getD p false = false) →
      (entries.foldl
        (fun a e => (a.1.poke e.1.1, writeMask a.2 (our_masks e.1.1) e.1.1))
        acc).2.getD p 0 = e0.1.1 := by
  intro entries
  induction entries with
  | nil => intro acc e0 _ h; cases h
  | cons e es ih =>
    intro acc e0 hnd he0 hp hlen hbit hother
    rw [List.nodup_cons] at hnd
    rw [List.foldl_cons]
    have hl : (writeMask acc.2 (our_masks e.1.1) e.1.1).length = acc.2.length := by
      rw [writeMask_length, hlen e (List.mem_cons_self e es), Nat.min_self]
    rcases List.mem_cons.mp he0 with h0 | h0
    · subst h0
      have hkeep := carriedFold_mask_keep our_masks p es
        (acc.1.poke e0.1.1, writeMask acc.2 (our_masks e0.1.1) e0.1.1)
        (by show p < (writeMask acc.2 (our_masks e0.1.1) e0.1.1).length
            rw [hl]; exact hp)
        (by intro e' he'
            show (our_masks e'.1.1).length =
              (writeMask acc.2 (our_masks e0.1.1) e0.1.1).length
            rw [hl]
            exact hlen e' (List.mem_cons_of_mem e0 he'))
        (by intro e' he'
            refine hother e' (List.mem_cons_of_mem e0 he') ?_
            intro hc
            exact hnd.1 (hc ▸ he'))
      rw [hkeep]
      show (writeMask acc.2 (our_masks e0.1.1) e0.1.1).getD p 0 = e0.1.1
      rw [writeMask_getD _ _ _ _ hp (hlen e0 (List.mem_cons_self e0 es)), hbit]
      simp
    · have hbite : (our_masks e.1.1).getD p false = false := by
        refine hother e (List.mem_cons_self e es) ?_
        intro hc
        exact hnd.1 (hc ▸ h0)
      have := ih (acc.1.poke e.1.1, writeMask acc.2 (our_masks e.1.1) e.1.1) e0 hnd.2 h0
        (by show p < (writeMask acc.2 (our_masks e.1.1) e.1.1).length; rw [hl]; exact hp)
        (by intro e' he'
            show (our_masks e'.1.1).length = (writeMask acc.2 (our_masks e.1.1) e.1.1).length
            rw [hl]
            exact hlen e' (List.mem_cons_of_mem e he'))
        hbit
        (fun e' he' hne => hother e' (List.mem_cons_of_mem e he') hne)
      rw [this]

theorem carriedFold_manager_strong (our_masks : Nat → Mask) :
    ∀ (entries : List ((Nat × Bool) × Int)) (acc : ObjectManager × LabelMask),
      ((entries.map (fun e => e.1.1)).Nodup) →
      (entries.foldl
        (fun a e => (a.1.poke e.1.1, writeMask a.2 (our_masks e.1.1) e.1.1))
        acc).1.objects = acc.1.objects.map
          (fun o => if o.id ∈ entries.map (fun e => e.1.1)
                    then { o with poke_count := o.poke_count + 1 } else o) := by
  intro entries
  induction entries with
  | nil =>
    intro acc _
    simp
  | cons e es ih =>
    intro acc hnd
    rw [List.map_cons, List.nodup_cons] at hnd
    rw [List.foldl_cons,
      ih (acc.1.poke e.1.1, writeMask acc.2 (our_masks e.1.1) e.1.1) hnd.2]
    show (acc.1.objects.map _).map _ = _
    rw [List.map_map, List.map_cons]
    refine List.map_congr_left ?_
    intro o _
    by_cases h : o.id = e.1.1
    · have h1 : (if o.id = e.1.1 then { o with poke_count := o.poke_count + 1 } else o) =
          { o with poke_count := o.poke_count + 1 } := if_pos h
      have h2 : o.id ∈ e.1.1 :: es.map (fun e => e.1.1) := by
        rw [h]; exact List.mem_cons_self _ _
      show (fun o' => if o'.id ∈ es.map (fun e => e.1.1)
          then { o' with poke_count := o'.poke_count + 1 } else o')
          ((fun o' => if o'.id = e.1.1 then { o' with poke_count := o'.poke_count + 1 }
            else o') o) = _
      simp only [h1, if_pos h2]
      rw [if_neg (by show ¬(o.id ∈ _); rw [h]; exact hnd.1)]
    · have h1 : (if o.id = e.1.1 then { o with poke_count := o.poke_count + 1 } else o) =
          o := if_neg h
      show (fun o' => if o'.id ∈ es.map (fun e => e.1.1)
          then { o' with poke_count := o'.poke_count + 1 } else o')
          ((fun o' => if o'.id = e.1.1 then { o' with poke_count := o'.poke_count + 1 }
            else o') o) = _
      simp only [h1]
      by_cases h2 : o.id ∈ es.map (fun e => e.1.1)
      · rw [if_pos h2, if_pos (List.mem_cons_of_mem _ h2)]
      · rw [if_neg h2, if_neg (by
          intro hc
          rcases List.mem_cons.mp hc with h' | h'
          · exact h h'
          · exact h2 h')]

end SegMerge

namespace SegMerge

theorem addCarriedOver_area_mem (our_sums : Nat → Int) (s : Option Bool) :
    ∀ (objs : List ObjectInfo) (st : MergeState), st.our_to_new_matching = [] →
      ∀ e ∈ (addCarriedOver our_sums s objs st).matched_area,
        e ∈ st.matched_area ∨ ∃ o ∈ objs, o.isthing = s ∧
          e = ((o.id, false), our_sums o.id) := by
  intro objs
  induction objs with
  | nil => intro st _ e he; exact Or.inl he
  | cons o rest ih =>
    intro st hm e he
    rw [addCarriedOver] at he
    by_cases hs : o.isthing = s
    · rw [if_neg (by
        rw [not_or]
        exact ⟨not_not_intro hs, by rw [hm]; simp [alookup]⟩)] at he
      have hm' : ({ st with matched_area := (assocSet (o.id, false) (our_sums o.id)
          st.matched_area) } : MergeState).our_to_new_matching = [] := hm
      rcases ih _ hm' e he with h | h
      · rcases mem_assocSet _ _ _ _ h with h' | h'
        · exact Or.inr ⟨o, List.mem_cons_self o rest, hs, h'⟩
        · exact Or.inl h'
      · obtain ⟨o', ho', hs', he'⟩ := h
        exact Or.inr ⟨o', List.mem_cons_of_mem o ho', hs', he'⟩
    · rw [if_pos (Or.inl hs)] at he
      rcases ih st hm e he with h | h
      · exact Or.inl h
      · obtain ⟨o', ho', hs', he'⟩ := h
        exact Or.inr ⟨o', List.mem_cons_of_mem o ho', hs', he'⟩

theorem addCarriedOver_keys_mono (our_sums : Nat → Int) (s : Option Bool) :
    ∀ (objs : List ObjectInfo) (st : MergeState) (k : Nat × Bool),
      k ∈ st.matched_area.map Prod.fst →
      k ∈ ((addCarriedOver our_sums s objs st).matched_area).map Prod.fst := by
  intro objs
  induction objs with
  | nil => intro st k h; exact h
  | cons o rest ih =>
    intro st k h
    rw [addCarriedOver]
    by_cases hc : o.isthing ≠ s ∨ (alookup o.id st.our_to_new_matching).isSome = true
    · rw [if_pos hc]
      exact ih st k h
    · rw [if_neg hc]
      exact ih _ k (keys_sub_assocSet _ _ _ _ h)

theorem addCarriedOver_area_covers (our_sums : Nat → Int) (s : Option Bool) :
    ∀ (objs : List ObjectInfo) (st : MergeState), st.our_to_new_matching = [] →
      ∀ o ∈ objs, o.isthing = s →
        (o.id, false) ∈ ((addCarriedOver our_sums s objs st).matched_area).map Prod.fst := by
  intro objs
  induction objs with
  | nil => intro st _ o ho; cases ho
  | cons o' rest ih =>
    intro st hm o ho hs
    rw [addCarriedOver]
    rcases List.mem_cons.mp ho with h | h
    · subst h
      rw [if_neg (by
        rw [not_or]
        exact ⟨not_not_intro hs, by rw [hm]; simp [alookup]⟩)]
      exact addCarriedOver_keys_mono our_sums s rest _ _
        (key_mem_assocSet (o.id, false) (our_sums o.id) st.matched_area)
    · by_cases hc : o'.isthing ≠ s ∨ (alookup o'.id st.our_to_new_matching).isSome = true
      · rw [if_pos hc]
        exact ih st hm o h hs
      · rw [if_neg hc]
        have hm' : ({ st with matched_area := (assocSet (o'.id, false) (our_sums o'.id)
            st.matched_area) } : MergeState).our_to_new_matching = [] := hm
        exact ih _ hm' o h hs

theorem addCarriedOver_keys_nodup (our_sums : Nat → Int) (s : Option Bool) :
    ∀ (objs : List ObjectInfo) (st : MergeState),
      (st.matched_area.map Prod.fst).Nodup →
      (((addCarriedOver our_sums s objs st).matched_area).map Prod.fst).Nodup := by
  intro objs
  induction objs with
  | nil => intro st h; exact h
  | cons o rest ih =>
    intro st h
    rw [addCarriedOver]
    by_cases hc : o.isthing ≠ s ∨ (alookup o.id st.our_to_new_matching).isSome = true
    · rw [if_pos hc]
      exact ih st h
    · rw [if_neg hc]
      exact ih _ (assocSet_keys_nodup _ _ _ h)

end SegMerge

namespace SegMerge

theorem getD_map_bool (f : Nat → Bool) (l : List Nat) (p : Nat) (hp : p < l.length) :
    (l.map f).getD p false = f (l.getD p 0) := by
  rw [List.getD_eq_getElem _ _ (by simpa using hp), List.getD_eq_getElem _ _ hp,
    List.getElem_map]

theorem map_id_of_map_pair {l1 l2 : List ObjectInfo}
    (h : l1.map (fun o => (o.id, o.isthing)) = l2.map (fun o => (o.id, o.isthing))) :
    l1.map ObjectInfo.id = l2.map ObjectInfo.id := by
  have h1 : (l1.map (fun o => (o.id, o.isthing))).map Prod.fst =
      (l2.map (fun o => (o.id, o.isthing))).map Prod.fst := by rw [h]
  simpa [List.map_map] using h1

/-- One empty-candidate category pass, fully characterised: the mask
keeps its length; every same-category object is poked; a pixel whose
incoming temp value does not point at a same-category object is left
unchanged; a pixel whose temp value points at position `i` of the
original registry with category `s` is painted with that object's
identity. -/
theorem pass_pointwise (omO : ObjectManager) (our_mask : LabelMask)
    (new_masks : Nat → Mask) (our_sums new_sums : Nat → Int) (s : Option Bool) (thr : ℚ)
    (omk : ObjectManager) (acc2 : LabelMask)
    (hnodup : (omO.objects.map ObjectInfo.id).Nodup)
    (hpairs : omk.objects.map (fun o => (o.id, o.isthing)) =
      omO.objects.map (fun o => (o.id, o.isthing)))
    (hlen : acc2.length = our_mask.length)
    (pass : ObjectManager × LabelMask)
    (hpass : pass = merge_by_iou (fun oid => our_mask.map (fun v => v == omO.tmp_id_of oid))
        new_masks our_sums new_sums acc2 omk [] s ∨
      pass = merge_by_engulf (fun oid => our_mask.map (fun v => v == omO.tmp_id_of oid))
        new_masks our_sums new_sums acc2 omk [] s thr) :
    pass.2.length = acc2.length ∧
    pass.1.objects = omk.objects.map
      (fun o => if o.isthing = s then { o with poke_count := o.poke_count + 1 } else o) ∧
    (∀ p, p < acc2.length →
      ((∀ (i : Nat) (hi : i < omO.objects.length),
          our_mask.getD p 0 = i + 1 → (omO.objects[i]).isthing ≠ s) →
        pass.2.getD p 0 = acc2.getD p 0) ∧
      (∀ (i : Nat) (hi : i < omO.objects.length),
        our_mask.getD p 0 = i + 1 → (omO.objects[i]).isthing = s →
        pass.2.getD p 0 = (omO.objects[i]).id)) := by
  set OM : Nat → Mask := fun oid => our_mask.map (fun v => v == omO.tmp_id_of oid) with hOM
  set st := addCarriedOver our_sums s omk.objects ⟨[], [], []⟩ with hst
  set E := sortDesc st.matched_area with hE
  have hm : st.our_to_new_matching = [] :=
    (addCarriedOver_matching our_sums s omk.objects ⟨[], [], []⟩).1
  have hfalseA : ∀ e ∈ st.matched_area, e.1.2 = false :=
    addCarriedOver_false_keys our_sums s omk.objects ⟨[], [], []⟩ (by intro e h; cases h)
  have hfalse : ∀ e ∈ E, e.1.2 = false := fun e he => hfalseA e (mem_sortDesc.mp he)
  have hfold : pass = E.foldl
      (fun a e => (a.1.poke e.1.1, writeMask a.2 (OM e.1.1) e.1.1)) (omk, acc2) := by
    rcases hpass with h | h
    · rw [h]
      show renderAll OM new_masks st.our_to_new_matching [] E (omk, acc2) = _
      rw [hm, renderAll_carried _ _ _ _ _ hfalse]
    · rw [h]
      show renderAll OM new_masks st.our_to_new_matching [] E (omk, acc2) = _
      rw [hm, renderAll_carried _ _ _ _ _ hfalse]
  have hkeysndA : (st.matched_area.map Prod.fst).Nodup :=
    addCarriedOver_keys_nodup our_sums s omk.objects ⟨[], [], []⟩ (by simp)
  have hpermkeys : (E.map Prod.fst).Perm (st.matched_area.map Prod.fst) :=
    (sortDesc_perm st.matched_area).map Prod.fst
  have hEkeysnd : (E.map Prod.fst).Nodup := hpermkeys.nodup_iff.mpr hkeysndA
  have hEnd : E.Nodup := hEkeysnd.of_map
  have hEmem : ∀ e ∈ E, ∃ o' ∈ omk.objects, o'.isthing = s ∧
      e = ((o'.id, false), our_sums o'.id) := by
    intro e he
    rcases addCarriedOver_area_mem our_sums s omk.objects ⟨[], [], []⟩ rfl e
      (mem_sortDesc.mp he) with h | h
    · cases h
    · exact h
  have homkids : omk.objects.map ObjectInfo.id = omO.objects.map ObjectInfo.id :=
    map_id_of_map_pair hpairs
  have hnodupk : (omk.objects.map ObjectInfo.id).Nodup := by rw [homkids]; exact hnodup
  have hlenOM : ∀ x : Nat, (OM x).length = acc2.length := by
    intro x
    rw [hOM]
    simpa using hlen.symm
  have hbit : ∀ (x p : Nat), p < our_mask.length →
      (OM x).getD p false = (our_mask.getD p 0 == omO.tmp_id_of x) := by
    intro x p hp
    rw [hOM]
    exact getD_map_bool _ our_mask p hp
  have hpairmem : ∀ o ∈ omk.objects, ∃ o0 ∈ omO.objects,
      o0.id = o.id ∧ o0.isthing = o.isthing := by
    intro o ho
    have : (o.id, o.isthing) ∈ omO.objects.map (fun o => (o.id, o.isthing)) := by
      rw [← hpairs]
      exact List.mem_map_of_mem _ ho
    rcases List.mem_map.mp this with ⟨o0, ho0, hpr⟩
    exact ⟨o0, ho0, congrArg Prod.fst hpr, congrArg Prod.snd hpr⟩
  have hpairmem' : ∀ o0 ∈ omO.objects, ∃ o ∈ omk.objects,
      o.id = o0.id ∧ o.isthing = o0.isthing := by
    intro o0 ho0
    have : (o0.id, o0.isthing) ∈ omk.objects.map (fun o => (o.id, o.isthing)) := by
      rw [hpairs]
      exact List.mem_map_of_mem _ ho0
    rcases List.mem_map.mp this with ⟨o, ho, hpr⟩
    exact ⟨o, ho, congrArg Prod.fst hpr, congrArg Prod.snd hpr⟩
  refine ⟨?_, ?_, ?_⟩
  · rw [hfold]
    exact carriedFold_mask_length OM E (omk, acc2) (fun e _ => hlenOM e.1.1)
  · rw [hfold]
    have hEidnd : (E.map (fun e => e.1.1)).Nodup := by
      refine List.Nodup.map_on ?_ hEnd
      intro e he e' he' hid
      refine eq_of_mem_keys_nodup hEkeysnd he he' ?_
      have h1 : e.1 = (e.1.1, false) := by
        rw [← hfalse e he]
      have h2 : e'.1 = (e'.1.1, false) := by
        rw [← hfalse e' he']
      rw [h1, h2, hid]
    rw [carriedFold_manager_strong OM E (omk, acc2) hEidnd]
    refine List.map_congr_left ?_
    intro o ho
    have hiff : o.id ∈ E.map (fun e => e.1.1) ↔ o.isthing = s := by
      constructor
      · intro h
        rcases List.mem_map.mp h with ⟨e, he, hid⟩
        rcases hEmem e he with ⟨o', ho', hs', hee⟩
        have ho'id : o'.id = o.id := by
          rw [hee] at hid
          exact hid
        have : o' = o := eq_of_id_mem_nodup hnodupk ho' ho ho'id
        rw [← this]
        exact hs'
      · intro h
        have hkey : (o.id, false) ∈ st.matched_area.map Prod.fst :=
          addCarriedOver_area_covers our_sums s omk.objects ⟨[], [], []⟩ rfl o ho h
        have : (o.id, false) ∈ E.map Prod.fst := hpermkeys.mem_iff.mpr hkey
        rcases List.mem_map.mp this with ⟨e, he, hk⟩
        refine List.mem_map.mpr ⟨e, he, ?_⟩
        rw [hk]
    by_cases h : o.isthing = s
    · rw [if_pos (hiff.mpr h), if_pos h]
    · rw [if_neg (fun hc => h (hiff.mp hc)), if_neg h]
  · intro p hp
    have hplen : p < our_mask.length := hlen ▸ hp
    constructor
    · intro hno
      rw [hfold]
      refine carriedFold_mask_keep OM p E (omk, acc2) hp (fun e _ => hlenOM e.1.1) ?_
      intro e he
      rcases hEmem e he with ⟨o', ho', hs', hee⟩
      rw [hee]
      show (OM o'.id).getD p false = false
      rw [hbit o'.id p hplen]
      by_contra hcb
      have hbeq : (our_mask.getD p 0 == omO.tmp_id_of o'.id) = true := by
        cases hb : (our_mask.getD p 0 == omO.tmp_id_of o'.id)
        · exact absurd hb hcb
        · rfl
      have ht : our_mask.getD p 0 = omO.tmp_id_of o'.id := by simpa using hbeq
      have hidmem : o'.id ∈ omO.objects.map ObjectInfo.id := by
        rw [← homkids]
        exact List.mem_map_of_mem _ ho'
      have htnz : omO.tmp_id_of o'.id ≠ 0 := tmp_id_of_mem_pos omO o'.id hidmem
      obtain ⟨hj, hjid⟩ := tmp_id_of_eq omO o'.id (omO.tmp_id_of o'.id) rfl htnz
      have hti : our_mask.getD p 0 = (omO.tmp_id_of o'.id - 1) + 1 := by omega
      have hnoth := hno (omO.tmp_id_of o'.id - 1) hj hti
      rcases hpairmem o' ho' with ⟨o0, ho0, hid0, hith0⟩
      have : omO.objects[omO.tmp_id_of o'.id - 1] = o0 :=
        eq_of_id_mem_nodup hnodup (List.getElem_mem _) ho0 (by rw [hjid, hid0])
      apply hnoth
      rw [this, hith0, hs']
    · intro i hi hti hsi
      rw [hfold]
      obtain ⟨o', ho', ho'id, ho'ith⟩ := hpairmem' (omO.objects[i]) (List.getElem_mem hi)
      have hkey : (o'.id, false) ∈ st.matched_area.map Prod.fst :=
        addCarriedOver_area_covers our_sums s omk.objects ⟨[], [], []⟩ rfl o' ho'
          (by rw [ho'ith]; exact hsi)
      have hkeyE : (o'.id, false) ∈ E.map Prod.fst := hpermkeys.mem_iff.mpr hkey
      rcases List.mem_map.mp hkeyE with ⟨e0, he0, hk0⟩
      have he0id : e0.1.1 = o'.id := by
        rw [hk0]
      have htmp : omO.tmp_id_of ((omO.objects[i]).id) = i + 1 :=
        tmp_id_of_getElem omO hnodup i hi
      have hbit0 : (OM e0.1.1).getD p false = true := by
        rw [hbit e0.1.1 p hplen, he0id, ho'id, htmp, hti]
        simp
      have huniq : ∀ e' ∈ E, e' ≠ e0 → (OM e'.1.1).getD p false = false := by
        intro e' he' hne
        rcases hEmem e' he' with ⟨o'', ho'', hs'', hee''⟩
        rw [hee'']
        show (OM o''.id).getD p false = false
        rw [hbit o''.id p hplen]
        by_contra hcb
        have hbeq : (our_mask.getD p 0 == omO.tmp_id_of o''.id) = true := by
          cases hb : (our_mask.getD p 0 == omO.tmp_id_of o''.id)
          · exact absurd hb hcb
          · rfl
        have ht2 : our_mask.getD p 0 = omO.tmp_id_of o''.id := by simpa using hbeq
        have htnz : omO.tmp_id_of o''.id ≠ 0 := by
          rw [← ht2, hti]
          exact Nat.succ_ne_zero i
        obtain ⟨hj2, hjid2⟩ := tmp_id_of_eq omO o''.id (omO.tmp_id_of o''.id) rfl htnz
        have hj2i : omO.tmp_id_of o''.id - 1 = i := by
          have h3 : omO.tmp_id_of o''.id = i + 1 := by rw [← ht2, hti]
          omega
        have ho''id : o''.id = (omO.objects[i]).id := by
          rw [← hjid2]
          simp only [hj2i]
        apply hne
        refine eq_of_mem_keys_nodup hEkeysnd he' he0 ?_
        have h1 : e'.1 = (o''.id, false) := by rw [hee'']
        rw [h1, hk0, ho''id, ← ho'id]
      have := carriedFold_mask_write OM p E (omk, acc2) e0 hEnd he0 hp
        (fun e _ => hlenOM e.1.1) hbit0 huniq
      rw [this, he0id, ho'id]

end SegMerge

namespace SegMerge

theorem pairs_map_poked (l : List ObjectInfo) (s : Option Bool) :
    (l.map (fun o => if o.isthing = s then { o with poke_count := o.poke_count + 1 }
      else o)).map (fun o => (o.id, o.isthing)) = l.map (fun o => (o.id, o.isthing)) := by
  rw [List.map_map]
  refine List.map_congr_left ?_
  intro o _
  by_cases h : o.isthing = s
  · simp [h]
  · simp [h]

theorem triple_poked (l : List ObjectInfo) :
    ((l.map (fun o => if o.isthing = none then { o with poke_count := o.poke_count + 1 }
        else o)).map
      (fun o => if o.isthing = some false then { o with poke_count := o.poke_count + 1 }
        else o)).map
      (fun o => if o.isthing = some true then { o with poke_count := o.poke_count + 1 }
        else o) =
    l.map (fun o => { o with poke_count := o.poke_count + 1 }) := by
  rw [List.map_map, List.map_map]
  refine List.map_congr_left ?_
  intro o _
  rcases ho : o.isthing with _ | b
  · simp [ho]
  · cases b
    · simp [ho]
    · simp [ho]

theorem relabelVal_getElem (ids : List Nat) (hnd : ids.Nodup) (i : Nat)
    (hi : i < ids.length) :
    relabelVal ids (ids[i]) = i + 1 := by
  rw [relabelVal]
  have hfind : ids.findIdx? (fun x => x == ids[i]) = some i := by
    rw [List.findIdx?_eq_some_iff_getElem]
    refine ⟨hi, by simp, ?_⟩
    intro j hji
    simp only [Bool.not_eq_true, beq_eq_false_iff_ne, ne_eq]
    intro hc
    have := (List.Nodup.getElem_inj_iff hnd).mp hc
    omega
  rw [hfind]

theorem relabelVal_not_mem (ids : List Nat) (v : Nat) (h : v ∉ ids) :
    relabelVal ids v = 0 := by
  rw [relabelVal]
  have hfind : ids.findIdx? (fun x => x == v) = none := by
    rw [List.findIdx?_eq_none_iff]
    intro x hx
    simp only [beq_eq_false_iff_ne, ne_eq]
    intro hc
    exact h (hc ▸ hx)
  rw [hfind]

theorem find?_map_id_eq (f : ObjectInfo → ObjectInfo) (hf : ∀ o, (f o).id = o.id) :
    ∀ (l : List ObjectInfo), (l.map ObjectInfo.id).Nodup → ∀ o ∈ l,
      (l.map f).find? (fun x => x.id == o.id) = some (f o) := by
  intro l
  induction l with
  | nil => intro _ o ho; cases ho
  | cons h t ih =>
    intro hnd o ho
    rw [List.map_cons, List.nodup_cons] at hnd
    rw [List.map_cons]
    rcases List.mem_cons.mp ho with h1 | h1
    · subst h1
      rw [List.find?_cons_of_pos _ (by simp [hf])]
    · rw [List.find?_cons_of_neg _ (by
        simp only [hf, beq_iff_eq]
        intro hc
        exact hnd.1 (hc ▸ List.mem_map_of_mem ObjectInfo.id h1))]
      exact ih hnd.2 o h1

theorem filterMap_find_of_eq (F : Nat → Option ObjectInfo) (f : ObjectInfo → ObjectInfo) :
    ∀ l : List ObjectInfo, (∀ o ∈ l, F o.id = some (f o)) →
      (l.map ObjectInfo.id).filterMap F = l.map f := by
  intro l
  induction l with
  | nil => intro _; rfl
  | cons h t ih =>
    intro hF
    rw [List.map_cons, List.map_cons,
      List.filterMap_cons_some (hF h (List.mem_cons_self h t)),
      ih (fun o ho => hF o (List.mem_cons_of_mem h ho))]

theorem map_idOfTmp_range (om : ObjectManager) :
    (List.range' 1 om.objects.length).map (idOfTmp om) = om.objects.map ObjectInfo.id := by
  refine List.ext_getElem (by simp) ?_
  intro i h1 h2
  have h1' : i < om.objects.length := by simpa using h2
  rw [List.getElem_map, List.getElem_map]
  have h1r : i < (List.range' 1 om.objects.length).length := by simpa using h1'
  have hr : (List.range' 1 om.objects.length)[i] = i + 1 := by
    rw [List.getElem_range']
    omega
  rw [hr, idOfTmp_pos om i h1']

theorem make_one_hot_canonical (omO om3 : ObjectManager) (our_mask : LabelMask)
    (hnodup : (omO.objects.map ObjectInfo.id).Nodup)
    (hnz : ∀ o ∈ omO.objects, o.id ≠ 0)
    (hcanon : presentIds our_mask [] = List.range' 1 omO.objects.length)
    (hvals : ∀ v ∈ our_mask, v = 0 ∨ v ∈ List.range' 1 omO.objects.length)
    (hobj3 : om3.objects = omO.objects.map
      (fun o => { o with poke_count := o.poke_count + 1 })) :
    om3.make_one_hot (our_mask.map (idOfTmp omO)) =
      ({ om3 with objects := (omO.objects.map
          (fun o => { o with poke_count := o.poke_count + 1 })) }, our_mask) := by
  have hz : ∀ v, (v ∈ our_mask ∨ v ∈ ([] : List Nat)) → (idOfTmp omO v = 0 ↔ v = 0) := by
    intro v hv
    rcases hv with hv | hv
    · constructor
      · intro hg
        by_contra hvnz
        rcases hvals v hv with h | h
        · exact hvnz h
        · rw [List.mem_range'_1] at h
          have hi : v - 1 < omO.objects.length := by omega
          have : idOfTmp omO v = (omO.objects[v-1]).id := by
            rw [idOfTmp, dif_pos ⟨hvnz, hi⟩]
          rw [this] at hg
          exact hnz _ (List.getElem_mem hi) hg
      · intro hv0
        rw [hv0, idOfTmp_zero]
    · cases hv
  have hinj : ∀ v u, (v ∈ our_mask ∨ v ∈ ([] : List Nat)) →
      (u ∈ our_mask ∨ u ∈ ([] : List Nat)) → idOfTmp omO v = idOfTmp omO u → v = u := by
    intro v u hv hu hg
    rcases hv with hv | hv
    on_goal 2 => cases hv
    rcases hu with hu | hu
    on_goal 2 => cases hu
    by_cases hv0 : v = 0
    · have : idOfTmp omO u = 0 := by rw [← hg, hv0, idOfTmp_zero]
      rw [hv0, ((hz u (Or.inl hu)).mp this)]
    · by_cases hu0 : u = 0
      · have : idOfTmp omO v = 0 := by rw [hg, hu0, idOfTmp_zero]
        exact absurd ((hz v (Or.inl hv)).mp this) hv0
      · rcases hvals v hv with h | hvr
        · exact absurd h hv0
        · rcases hvals u hu with h | hur
          · exact absurd h hu0
          · rw [List.mem_range'_1] at hvr hur
            have hiv : v - 1 < omO.objects.length := by omega
            have hiu : u - 1 < omO.objects.length := by omega
            have hgv : idOfTmp omO v = (omO.objects[v-1]).id := by
              rw [idOfTmp, dif_pos ⟨hv0, hiv⟩]
            have hgu : idOfTmp omO u = (omO.objects[u-1]).id := by
              rw [idOfTmp, dif_pos ⟨hu0, hiu⟩]
            rw [hgv, hgu] at hg
            have hivm : v - 1 < (omO.objects.map ObjectInfo.id).length := by
              simpa using hiv
            have hium : u - 1 < (omO.objects.map ObjectInfo.id).length := by
              simpa using hiu
            have hmv : (omO.objects.map ObjectInfo.id)[v-1] =
                (omO.objects.map ObjectInfo.id)[u-1] := by
              simpa using hg
            have := (List.Nodup.getElem_inj_iff hnodup).mp hmv
            omega
  have hids : presentIds (our_mask.map (idOfTmp omO)) [] =
      omO.objects.map ObjectInfo.id := by
    have h1 := presentIds_map (idOfTmp omO) our_mask [] hz hinj
    have h2 : (([] : List Nat).map (idOfTmp omO)) = [] := rfl
    rw [h2] at h1
    rw [h1, hcanon, map_idOfTmp_range]
  rw [ObjectManager.make_one_hot]
  rw [hids]
  have hobjs : (omO.objects.map ObjectInfo.id).filterMap
      (fun i => om3.objects.find? (fun o => o.id == i)) =
      omO.objects.map (fun o => { o with poke_count := o.poke_count + 1 }) := by
    refine filterMap_find_of_eq _ _ omO.objects ?_
    intro o ho
    rw [hobj3]
    exact find?_map_id_eq (fun o => { o with poke_count := o.poke_count + 1 })
      (fun _ => rfl) omO.objects hnodup o ho
  rw [hobjs]
  have hmask : (our_mask.map (idOfTmp omO)).map
      (relabelVal (omO.objects.map ObjectInfo.id)) = our_mask := by
    rw [List.map_map]
    have : ∀ v ∈ our_mask,
        relabelVal (omO.objects.map ObjectInfo.id) (idOfTmp omO v) = v := by
      intro v hv
      rcases hvals v hv with h | h
      · rw [h, idOfTmp_zero]
        refine relabelVal_not_mem _ _ ?_
        intro hc
        rcases List.mem_map.mp hc with ⟨o, ho, hid⟩
        exact hnz o ho hid
      · rw [List.mem_range'_1] at h
        have hi : v - 1 < omO.objects.length := by omega
        have hg : idOfTmp omO v = (omO.objects[v-1]).id := by
          rw [idOfTmp, dif_pos ⟨by omega, hi⟩]
        have him : v - 1 < (omO.objects.map ObjectInfo.id).length := by simpa using hi
        have hel : (omO.objects[v-1]).id =
            (omO.objects.map ObjectInfo.id)[v-1] := by
          rw [List.getElem_map]
        rw [hg, hel, relabelVal_getElem _ hnodup (v-1) (by simpa using hi)]
        omega
    calc our_mask.map (fun v => relabelVal (omO.objects.map ObjectInfo.id) (idOfTmp omO v))
        = our_mask.map id := List.map_congr_left (fun v hv => this v hv)
      _ = our_mask := List.map_id our_mask
  rw [hmask]

end SegMerge

namespace SegMerge

theorem keep_of_other (om : ObjectManager) (j : Nat) (hj : j < om.objects.length)
    (t : Nat) (ht : t = j + 1) (s : Option Bool)
    (hne : (om.objects[j]).isthing ≠ s) :
    ∀ (i : Nat) (hi : i < om.objects.length), t = i + 1 →
      (om.objects[i]).isthing ≠ s := by
  intro i hi hti
  have hij : i = j := by omega
  subst hij
  exact hne

theorem triple_pass (om : ObjectManager) (our_mask : LabelMask) (NM : Nat → Mask)
    (OS NS : Nat → Int) (mode : String) (thr : ℚ)
    (hmode : strLower mode = "iou" ∨ strLower mode = "engulf")
    (hnodup : (om.objects.map ObjectInfo.id).Nodup) :
    ([none, some false, some true].foldl
      (mergeStep (fun oid => our_mask.map (fun v => v == om.tmp_id_of oid)) NM OS NS []
        (strLower mode) thr) (om, our_mask.map (fun _ => 0))).1.objects =
      om.objects.map (fun o => { o with poke_count := o.poke_count + 1 }) ∧
    ([none, some false, some true].foldl
      (mergeStep (fun oid => our_mask.map (fun v => v == om.tmp_id_of oid)) NM OS NS []
        (strLower mode) thr) (om, our_mask.map (fun _ => 0))).2 =
      our_mask.map (idOfTmp om) := by
  rw [List.foldl_cons, List.foldl_cons, List.foldl_cons, List.foldl_nil]
  set F : Nat → Mask := fun oid => our_mask.map (fun v => v == om.tmp_id_of oid) with hF
  set m0 : LabelMask := our_mask.map (fun _ => 0) with hm0
  have hstep : ∀ (acc : ObjectManager × LabelMask) (s : Option Bool),
      mergeStep F NM OS NS [] (strLower mode) thr acc s =
        merge_by_iou F NM OS NS acc.2 acc.1 [] s ∨
      mergeStep F NM OS NS [] (strLower mode) thr acc s =
        merge_by_engulf F NM OS NS acc.2 acc.1 [] s thr := by
    intro acc s
    rcases hmode with h | h
    · exact Or.inl (by rw [mergeStep, if_pos h])
    · refine Or.inr ?_
      rw [mergeStep, if_neg (by rw [h]; decide), if_pos h]
  have hlen0 : m0.length = our_mask.length := by rw [hm0]; simp
  obtain ⟨hL1, hO1, hPtw1⟩ := pass_pointwise om our_mask NM OS NS none thr om m0
    hnodup rfl hlen0 _ (hstep (om, m0) none)
  set P1 := mergeStep F NM OS NS [] (strLower mode) thr (om, m0) none with hP1
  have hpairs1 : P1.1.objects.map (fun o => (o.id, o.isthing)) =
      om.objects.map (fun o => (o.id, o.isthing)) := by
    rw [hO1]
    exact pairs_map_poked _ _
  have hlen1 : P1.2.length = our_mask.length := by rw [hL1]; exact hlen0
  obtain ⟨hL2, hO2, hPtw2⟩ := pass_pointwise om our_mask NM OS NS (some false) thr P1.1
    P1.2 hnodup hpairs1 hlen1 _ (hstep P1 (some false))
  set P2 := mergeStep F NM OS NS [] (strLower mode) thr P1 (some false) with hP2
  have hpairs2 : P2.1.objects.map (fun o => (o.id, o.isthing)) =
      om.objects.map (fun o => (o.id, o.isthing)) := by
    rw [hO2]
    rw [show (P1.1.objects.map (fun o =>
      if o.isthing = some false then { o with poke_count := o.poke_count + 1 }
      else o)).map (fun o => (o.id, o.isthing)) =
      P1.1.objects.map (fun o => (o.id, o.isthing)) from pairs_map_poked _ _]
    exact hpairs1
  have hlen2 : P2.2.length = our_mask.length := by rw [hL2]; exact hlen1
  obtain ⟨hL3, hO3, hPtw3⟩ := pass_pointwise om our_mask NM OS NS (some true) thr P2.1
    P2.2 hnodup hpairs2 hlen2 _ (hstep P2 (some true))
  set P3 := mergeStep F NM OS NS [] (strLower mode) thr P2 (some true) with hP3
  constructor
  · rw [hO3, hO2, hO1]
    exact triple_poked om.objects
  · have hlen3 : P3.2.length = our_mask.length := by rw [hL3]; exact hlen2
    refine List.ext_getElem (by rw [hlen3]; simp) ?_
    intro p hp1 hp2
    have hpm : p < our_mask.length := by rw [hlen3] at hp1; exact hp1
    have hp0 : p < m0.length := by rw [hlen0]; exact hpm
    have hpP1 : p < P1.2.length := by rw [hlen1]; exact hpm
    have hpP2 : p < P2.2.length := by rw [hlen2]; exact hpm
    rw [← List.getD_eq_getElem P3.2 0 hp1, List.getElem_map,
      ← List.getD_eq_getElem our_mask 0 hpm]
    have hm0getD : m0.getD p 0 = 0 := by
      rw [hm0, List.getD_eq_getElem _ _ (by simpa using hpm)]
      rw [List.getElem_map]
    by_cases hcase : ∃ j, ∃ hj : j < om.objects.length, our_mask.getD p 0 = j + 1
    · obtain ⟨j, hj, ht⟩ := hcase
      rcases hs : (om.objects[j]).isthing with _ | b
      · have w1 : P1.2.getD p 0 = (om.objects[j]).id :=
          (hPtw1 p hp0).2 j hj ht hs
        have k2 : P2.2.getD p 0 = P1.2.getD p 0 :=
          (hPtw2 p hpP1).1 (keep_of_other om j hj _ ht (some false) (by rw [hs]; decide))
        have k3 : P3.2.getD p 0 = P2.2.getD p 0 :=
          (hPtw3 p hpP2).1 (keep_of_other om j hj _ ht (some true) (by rw [hs]; decide))
        rw [k3, k2, w1, ht, idOfTmp_pos om j hj]
      · cases b
        · have k1 : P1.2.getD p 0 = m0.getD p 0 :=
            (hPtw1 p hp0).1 (keep_of_other om j hj _ ht none (by rw [hs]; decide))
          have w2 : P2.2.getD p 0 = (om.objects[j]).id :=
            (hPtw2 p hpP1).2 j hj ht hs
          have k3 : P3.2.getD p 0 = P2.2.getD p 0 :=
            (hPtw3 p hpP2).1 (keep_of_other om j hj _ ht (some true) (by rw [hs]; decide))
          rw [k3, w2, ht, idOfTmp_pos om j hj]
        · have k1 : P1.2.getD p 0 = m0.getD p 0 :=
            (hPtw1 p hp0).1 (keep_of_other om j hj _ ht none (by rw [hs]; decide))
          have k2 : P2.2.getD p 0 = P1.2.getD p 0 :=
            (hPtw2 p hpP1).1 (keep_of_other om j hj _ ht (some false) (by rw [hs]; decide))
          have w3 : P3.2.getD p 0 = (om.objects[j]).id :=
            (hPtw3 p hpP2).2 j hj ht hs
          rw [w3, ht, idOfTmp_pos om j hj]
    · push_neg at hcase
      have k1 : P1.2.getD p 0 = m0.getD p 0 :=
        (hPtw1 p hp0).1 (fun i hi hti => absurd hti (hcase i hi))
      have k2 : P2.2.getD p 0 = P1.2.getD p 0 :=
        (hPtw2 p hpP1).1 (fun i hi hti => absurd hti (hcase i hi))
      have k3 : P3.2.getD p 0 = P2.2.getD p 0 :=
        (hPtw3 p hpP2).1 (fun i hi hti => absurd hti (hcase i hi))
      rw [k3, k2, k1, hm0getD, idOfTmp,
        dif_neg (by
          rintro ⟨h1, h2⟩
          exact hcase (our_mask.getD p 0 - 1) h2 (by omega))]

end SegMerge

namespace SegMerge

theorem make_result (omO om3 : ObjectManager) (our_mask premask : LabelMask)
    (hnodup : (omO.objects.map ObjectInfo.id).Nodup)
    (hnz : ∀ o ∈ omO.objects, o.id ≠ 0)
    (hcanon : presentIds our_mask [] = List.range' 1 omO.objects.length)
    (hobj3 : om3.objects = omO.objects.map
      (fun o => { o with poke_count := o.poke_count + 1 }))
    (hpre : premask = our_mask.map (idOfTmp omO)) :
    (om3.make_one_hot premask).2 = our_mask ∧
    (om3.make_one_hot premask).1.objects =
      omO.objects.map (fun o => { o with poke_count := o.poke_count + 1 }) := by
  have hvals : ∀ v ∈ our_mask, v = 0 ∨ v ∈ List.range' 1 omO.objects.length := by
    intro v hv
    by_cases h0 : v = 0
    · exact Or.inl h0
    · exact Or.inr (hcanon ▸ mem_presentIds our_mask [] v hv h0 (List.not_mem_nil v))
  rw [hpre, make_one_hot_canonical omO om3 our_mask hnodup hnz hcanon hvals hobj3]
  exact ⟨rfl, rfl⟩

theorem empty_cands_full (our_mask new_mask : LabelMask) (om : ObjectManager)
    (mode : String) (mx : Int) (thr : ℚ)
    (hmode : strLower mode = "iou" ∨ strLower mode = "engulf")
    (hnodup : (om.objects.map ObjectInfo.id).Nodup)
    (hnz : ∀ o ∈ om.objects, o.id ≠ 0)
    (hcanon : presentIds our_mask [] = List.range' 1 om.objects.length) :
    (match_and_merge our_mask new_mask om [] mode mx thr).mask = our_mask ∧
    (match_and_merge our_mask new_mask om [] mode mx thr).object_manager.objects =
      om.objects.map (fun o => { o with poke_count := o.poke_count + 1 }) := by
  simp only [match_and_merge, match_isthing, ite_self]
  refine make_result om _ our_mask _ hnodup hnz hcanon ?_ ?_
  · exact (triple_pass om our_mask _ _ _ mode thr hmode hnodup).1
  · exact (triple_pass om our_mask _ _ _ mode thr hmode hnodup).2

end SegMerge

namespace SegMerge

theorem mem_update_obj (om : ObjectManager) (k : Nat) (f : ObjectInfo → ObjectInfo) :
    ∀ o ∈ (om.update_obj k f).objects,
      ∃ o0 ∈ om.objects, o = if o0.id = k then f o0 else o0 := by
  intro o ho
  replace ho : o ∈ om.objects.map (fun o => if o.id = k then f o else o) := ho
  obtain ⟨o0, ho0, heq⟩ := List.mem_map.mp ho
  exact ⟨o0, ho0, heq.symm⟩

theorem renderEntry_establishes (om_ nm_ : Nat → Mask) (matching : List (Nat × Nat))
    (cands : List ObjectInfo) (acc : ObjectManager × LabelMask)
    (e : (Nat × Bool) × Int) (oid nid : Nat)
    (hmatch : alookup oid matching = some nid) (hkey : e.1 = (oid, false)) :
    ∀ o ∈ (renderEntry om_ nm_ matching cands acc e).1.objects,
      o.id = oid → o.poke_count = 0 := by
  have h1 : e.1.1 = oid := by rw [hkey]
  have h2 : e.1.2 = false := by rw [hkey]
  intro o ho hid
  simp only [renderEntry] at ho
  rw [if_neg (by rw [h2]; exact Bool.false_ne_true), h1, hmatch] at ho
  replace ho : o ∈ ((acc.1.merge_obj oid (findCand cands nid)).unpoke oid).objects := ho
  obtain ⟨o1, ho1, he1⟩ :=
    mem_update_obj (acc.1.merge_obj oid (findCand cands nid)) oid
      (fun o => { o with poke_count := 0 }) o ho
  by_cases h : o1.id = oid
  · rw [he1, if_pos h]
  · rw [he1, if_neg h] at hid
    exact absurd hid h

theorem renderEntry_preserves (om_ nm_ : Nat → Mask) (matching : List (Nat × Nat))
    (cands : List ObjectInfo) (acc : ObjectManager × LabelMask)
    (e : (Nat × Bool) × Int) (oid nid : Nat)
    (hmatch : alookup oid matching = some nid)
    (hinv : ∀ o ∈ acc.1.objects, o.id = oid → o.poke_count = 0) :
    ∀ o ∈ (renderEntry om_ nm_ matching cands acc e).1.objects,
      o.id = oid → o.poke_count = 0 := by
  intro o ho hid
  simp only [renderEntry] at ho
  by_cases ht : e.1.2 = true
  · rw [if_pos ht] at ho
    replace ho : o ∈ acc.1.objects ++
      [{ findCand cands e.1.1 with id := acc.1.next_id, poke_count := 0 }] := ho
    rcases List.mem_append.mp ho with h' | h'
    · exact hinv o h' hid
    · rw [List.mem_singleton.mp h']
  · rw [if_neg ht] at ho
    rcases halo : alookup e.1.1 matching with _ | nid'
    · rw [halo] at ho
      replace ho : o ∈ (acc.1.poke e.1.1).objects := ho
      obtain ⟨o1, ho1, he1⟩ := mem_update_obj acc.1 e.1.1
        (fun o => { o with poke_count := o.poke_count + 1 }) o ho
      by_cases h : o1.id = e.1.1
      · rw [he1, if_pos h] at hid
        have hid' : o1.id = oid := hid
        have hoe : e.1.1 = oid := h.symm.trans hid'
        rw [hoe] at halo
        cases hmatch.symm.trans halo
      · rw [he1, if_neg h] at hid ⊢
        exact hinv o1 ho1 hid
    · rw [halo] at ho
      replace ho : o ∈ ((acc.1.merge_obj e.1.1 (findCand cands nid')).unpoke e.1.1).objects :=
        ho
      obtain ⟨o1, ho1, he1⟩ :=
        mem_update_obj (acc.1.merge_obj e.1.1 (findCand cands nid')) e.1.1
          (fun o => { o with poke_count := 0 }) o ho
      by_cases h : o1.id = e.1.1
      · rw [he1, if_pos h]
      · obtain ⟨o2, ho2, he2⟩ := mem_update_obj acc.1 e.1.1
          (fun o => { o with score := max o.score (findCand cands nid').score }) o1 ho1
        by_cases h2 : o2.id = e.1.1
        · exfalso
          apply h
          rw [he2, if_pos h2]
          exact h2
        · rw [he1, if_neg h, he2, if_neg h2] at hid ⊢
          exact hinv o2 ho2 hid

theorem renderAll_unpoked (om_ nm_ : Nat → Mask) (matching : List (Nat × Nat))
    (cands : List ObjectInfo) (oid nid : Nat)
    (hmatch : alookup oid matching = some nid) :
    ∀ (es : List ((Nat × Bool) × Int)) (acc : ObjectManager × LabelMask),
      ((oid, false) ∈ es.map Prod.fst ∨
        ∀ o ∈ acc.1.objects, o.id = oid → o.poke_count = 0) →
      ∀ o ∈ (renderAll om_ nm_ matching cands es acc).1.objects,
        o.id = oid → o.poke_count = 0 := by
  intro es
  induction es with
  | nil =>
    intro acc hd
    simp only [renderAll]
    rcases hd with hd | hd
    · rw [List.map_nil] at hd
      cases hd
    · exact hd
  | cons e es ih =>
    intro acc hd
    simp only [renderAll]
    rcases hd with hd | hd
    · rw [List.map_cons] at hd
      rcases List.mem_cons.mp hd with hk | hk
      · exact ih _ (Or.inr
          (renderEntry_establishes om_ nm_ matching cands acc e oid nid hmatch hk.symm))
      · exact ih _ (Or.inl hk)
    · exact ih _ (Or.inr
        (renderEntry_preserves om_ nm_ matching cands acc e oid nid hmatch hd))

end SegMerge

namespace SegMerge

/-- Every matched object identity has a carried-over-style render key in
`matched_area`. -/
def MatchedInArea (st : MergeState) : Prop :=
  ∀ k : Nat, (alookup k st.our_to_new_matching).isSome = true →
    (k, false) ∈ st.matched_area.map Prod.fst

theorem iouScan_area_covers (om_ nm_ : Nat → Mask) (os_ ns_ : Nat → Int)
    (s : Option Bool) (c : ObjectInfo) :
    ∀ (objs : List ObjectInfo) (st : MergeState), MatchedInArea st →
      MatchedInArea (iouScan om_ nm_ os_ ns_ s c objs st) := by
  intro objs
  induction objs with
  | nil =>
    intro st h
    simp only [iouScan]
    intro k hk
    replace hk : (alookup k st.our_to_new_matching).isSome = true := hk
    exact keys_sub_assocSet _ _ _ _ (h k hk)
  | cons ob rest ih =>
    intro st h
    simp only [iouScan]
    by_cases hskip : ob.isthing ≠ s ∨ (alookup ob.id st.our_to_new_matching).isSome = true
    · rw [if_pos hskip]
      exact ih st h
    · rw [if_neg hskip]
      by_cases hr : (get_iou (nm_ c.id) (om_ ob.id) (ns_ c.id) (os_ ob.id)).ratio > 1/2
      · rw [if_pos hr]
        intro k hk
        replace hk : (alookup k (assocSet ob.id c.id st.our_to_new_matching)).isSome = true :=
          hk
        rw [alookup_assocSet] at hk
        by_cases hko : k = ob.id
        · rw [hko]
          exact key_mem_assocSet _ _ _
        · rw [if_neg hko] at hk
          exact keys_sub_assocSet _ _ _ _ (h k hk)
      · rw [if_neg hr]
        exact ih st h

theorem iouMatchCands_area_covers (om_ nm_ : Nat → Mask) (os_ ns_ : Nat → Int)
    (s : Option Bool) (objs : List ObjectInfo) :
    ∀ (cs : List ObjectInfo) (st : MergeState), MatchedInArea st →
      MatchedInArea (iouMatchCands om_ nm_ os_ ns_ s objs cs st) := by
  intro cs
  induction cs with
  | nil =>
    intro st h
    simp only [iouMatchCands]
    exact h
  | cons c cs ih =>
    intro st h
    simp only [iouMatchCands]
    by_cases hc : c.isthing ≠ s
    · rw [if_pos hc]
      exact ih st h
    · rw [if_neg hc]
      exact ih _ (iouScan_area_covers om_ nm_ os_ ns_ s c objs st h)

theorem addCarriedOver_covers_matched (os_ : Nat → Int) (s : Option Bool) :
    ∀ (objs : List ObjectInfo) (st : MergeState), MatchedInArea st →
      MatchedInArea (addCarriedOver os_ s objs st) := by
  intro objs
  induction objs with
  | nil =>
    intro st h
    simp only [addCarriedOver]
    exact h
  | cons ob rest ih =>
    intro st h
    simp only [addCarriedOver]
    by_cases hskip : ob.isthing ≠ s ∨ (alookup ob.id st.our_to_new_matching).isSome = true
    · rw [if_pos hskip]
      exact ih st h
    · rw [if_neg hskip]
      refine ih _ ?_
      intro k hk
      replace hk : (alookup k st.our_to_new_matching).isSome = true := hk
      exact keys_sub_assocSet _ _ _ _ (h k hk)

theorem matched_unpoked (om_ nm_ : Nat → Mask) (os_ ns_ : Nat → Int)
    (merged_mask : LabelMask) (om : ObjectManager) (cands : List ObjectInfo)
    (s : Option Bool) (oid nid : Nat)
    (hmatch : alookup oid (addCarriedOver os_ s om.objects
      (iouMatchCands om_ nm_ os_ ns_ s om.objects cands
        ⟨[], [], []⟩)).our_to_new_matching = some nid) :
    ∀ o ∈ (merge_by_iou om_ nm_ os_ ns_ merged_mask om cands s).1.objects,
      o.id = oid → o.poke_count = 0 := by
  simp only [merge_by_iou]
  set ST := addCarriedOver os_ s om.objects
    (iouMatchCands om_ nm_ os_ ns_ s om.objects cands ⟨[], [], []⟩) with hST
  have hA : MatchedInArea ST := by
    rw [hST]
    refine addCarriedOver_covers_matched os_ s om.objects _ ?_
    refine iouMatchCands_area_covers om_ nm_ os_ ns_ s om.objects cands _ ?_
    intro k hk
    replace hk : (alookup k ([] : List (Nat × Nat))).isSome = true := hk
    rw [alookup_nil] at hk
    cases hk
  have hkey : (oid, false) ∈ ST.matched_area.map Prod.fst :=
    hA oid (by rw [hmatch]; rfl)
  have hsorted : (oid, false) ∈ (sortDesc ST.matched_area).map Prod.fst :=
    (((sortDesc_perm ST.matched_area).map Prod.fst).mem_iff).mpr hkey
  exact renderAll_unpoked om_ nm_ ST.our_to_new_matching cands oid nid hmatch
    (sortDesc ST.matched_area) (om, merged_mask) (Or.inl hsorted)

end SegMerge

namespace SegMerge

theorem c6_state :
    addCarriedOver (fun _ => 3) (some true) [⟨10, some true, 1, 3⟩]
      (iouMatchCands (fun _ => [true, true, true, false]) (fun _ => [true, true, false, false])
        (fun _ => 3) (fun _ => 2) (some true) [⟨10, some true, 1, 3⟩]
        [⟨1, some true, 1, 0⟩] ⟨[], [], []⟩) =
      ⟨[(10, 1)],
        [((10, false),
          (get_iou [true, true, false, false] [true, true, true, false] 2 3).union.getD 0)],
        []⟩ := by
  have hscan : iouScan (fun _ => [true, true, true, false])
      (fun _ => [true, true, false, false]) (fun _ => 3) (fun _ => 2) (some true)
      ⟨1, some true, 1, 0⟩ [⟨10, some true, 1, 3⟩] ⟨[], [], []⟩ =
      ⟨[(10, 1)],
        [((10, false),
          (get_iou [true, true, false, false] [true, true, true, false] 2 3).union.getD 0)],
        []⟩ := by
    simp only [iouScan]
    rw [if_neg (by simp [alookup]), if_pos c7_ratio]
    rfl
  rw [iouMatchCands, if_neg (by simp), iouMatchCands, hscan, addCarriedOver,
    if_pos (Or.inr (by simp [alookup])), addCarriedOver]

theorem c6_render_objects :
    (merge_by_iou (fun _ => [true, true, true, false]) (fun _ => [true, true, false, false])
      (fun _ => 3) (fun _ => 2) [0, 0, 0, 0] ⟨[⟨10, some true, 1, 3⟩], [10], 11⟩
      [⟨1, some true, 1, 0⟩] (some true)).1.objects = [⟨10, some true, 1, 0⟩] := by
  simp only [merge_by_iou]
  rw [c6_state]
  norm_num [renderAll, renderEntry, sortDesc, insertDesc, alookup, findCand,
    ObjectManager.merge_obj, ObjectManager.unpoke, ObjectManager.poke,
    ObjectManager.update_obj]

end SegMerge

namespace SegMerge

/-- **C6**: carried-over poke and matched unpoke. (a) For every
`match_and_merge` call with an empty candidate list, a recognised mode, a
duplicate-free registry of nonzero identities, and an input mask whose
temp indices enumerate the registry positions, the output mask equals the
input mask (every object's pixels keep their temp index) and every
existing object's staleness counter is incremented by exactly one.
(b) Conversely, in a merge pass, every existing object whose identity is
matched to a candidate in the final matching dictionary ends with its
staleness counter reset to zero. -/
theorem carried_over_poke_and_unpoke :
    (∀ (our_mask new_mask : LabelMask) (om : ObjectManager) (mode : String)
        (mx : Int) (thr : ℚ),
      strLower mode = "iou" ∨ strLower mode = "engulf" →
      (om.objects.map ObjectInfo.id).Nodup →
      (∀ o ∈ om.objects, o.id ≠ 0) →
      presentIds our_mask [] = List.range' 1 om.objects.length →
      (match_and_merge our_mask new_mask om [] mode mx thr).mask = our_mask ∧
      (match_and_merge our_mask new_mask om [] mode mx thr).object_manager.objects =
        om.objects.map (fun o => { o with poke_count := o.poke_count + 1 })) ∧
    (∀ (om_ nm_ : Nat → Mask) (os_ ns_ : Nat → Int) (merged_mask : LabelMask)
        (om : ObjectManager) (cands : List ObjectInfo) (s : Option Bool) (oid nid : Nat),
      alookup oid (addCarriedOver os_ s om.objects
        (iouMatchCands om_ nm_ os_ ns_ s om.objects cands
          ⟨[], [], []⟩)).our_to_new_matching = some nid →
      ∀ o ∈ (merge_by_iou om_ nm_ os_ ns_ merged_mask om cands s).1.objects,
        o.id = oid → o.poke_count = 0) :=
  ⟨fun our_mask new_mask om mode mx thr hmode hnodup hnz hcanon =>
      empty_cands_full our_mask new_mask om mode mx thr hmode hnodup hnz hcanon,
    fun om_ nm_ os_ ns_ merged_mask om cands s oid nid hmatch =>
      matched_unpoked om_ nm_ os_ ns_ merged_mask om cands s oid nid hmatch⟩

theorem carried_over_poke_and_unpoke_witness :
    (match_and_merge [0, 1, 1] [] ⟨[⟨5, some true, 1, 2⟩], [5], 6⟩ [] "iou" 0 0).mask
        = [0, 1, 1] ∧
    (match_and_merge [0, 1, 1] [] ⟨[⟨5, some true, 1, 2⟩], [5], 6⟩ []
        "iou" 0 0).object_manager.objects = [⟨5, some true, 1, 3⟩] ∧
    (⟨10, some true, 1, 0⟩ : ObjectInfo).poke_count = 0 := by
  have ha := carried_over_poke_and_unpoke.1 [0, 1, 1] [] ⟨[⟨5, some true, 1, 2⟩], [5], 6⟩
    "iou" 0 0 (Or.inl rfl) (by decide) (by decide) (by decide)
  refine ⟨ha.1, ?_, ?_⟩
  · rw [ha.2]
    rfl
  · refine carried_over_poke_and_unpoke.2 (fun _ => [true, true, true, false])
      (fun _ => [true, true, false, false]) (fun _ => 3) (fun _ => 2) [0, 0, 0, 0]
      ⟨[⟨10, some true, 1, 3⟩], [10], 11⟩ [⟨1, some true, 1, 0⟩] (some true) 10 1
      ?_ ⟨10, some true, 1, 0⟩ ?_ rfl
    · show alookup 10 (addCarriedOver (fun _ => 3) (some true) [⟨10, some true, 1, 3⟩]
        (iouMatchCands (fun _ => [true, true, true, false])
          (fun _ => [true, true, false, false]) (fun _ => 3) (fun _ => 2) (some true)
          [⟨10, some true, 1, 3⟩] [⟨1, some true, 1, 0⟩]
          ⟨[], [], []⟩)).our_to_new_matching = some 1
      rw [c7_iou_matching]
      rfl
    · rw [c6_render_objects]
      exact List.mem_singleton.mpr rfl

end SegMerge
